import Mathlib

/-!
Verification of the AnchorPhase workout tracker against its specification.

The TypeScript source is shallowly embedded:
* JS `number` is modelled by `ℚ` (exact arithmetic) or `Nat` where the code
  only ever produces nonnegative integers;
* strings are Lean `String`s; the heuristic text parser works on `List Char`
  with executable helpers mirroring the JS string primitives it uses
  (`trim`, `trimEnd`, `split`, `toLowerCase` on the ASCII range, `includes`,
  `indexOf`, `substring`);
* `localeCompare` and `new Date(s).getTime()` are abstracted as explicit
  function parameters (`lcmp : String → String → Int`,
  `time : String → Int`); `Array.prototype.sort` with a consistent
  comparator is modelled by the stable `List.mergeSort`;
* nondeterministic id generation (`generateUniqueId`) is an explicit
  parameter;
* `localStorage` + `JSON.parse` round-trips are modelled by passing the
  stored document as an optional partially-populated record.
-/

set_option maxRecDepth 10000

namespace AnchorPhase

/-! ## Character / string helpers mirroring the JS primitives -/

/-- Whitespace as recognised by JS `\s` / `trim`, restricted to ASCII. -/
def jsIsSpace (c : Char) : Bool :=
  c == ' ' || c == '\t' || c == '\n' || c == '\r' || c == '\x0b' || c == '\x0c'

/-- ASCII lowercasing, modelling `String.prototype.toLowerCase` on the
ASCII range (the only range the parser's keywords and weekday names use). -/
def asciiLower (c : Char) : Char :=
  match c with
  | 'A' => 'a' | 'B' => 'b' | 'C' => 'c' | 'D' => 'd' | 'E' => 'e' | 'F' => 'f'
  | 'G' => 'g' | 'H' => 'h' | 'I' => 'i' | 'J' => 'j' | 'K' => 'k' | 'L' => 'l'
  | 'M' => 'm' | 'N' => 'n' | 'O' => 'o' | 'P' => 'p' | 'Q' => 'q' | 'R' => 'r'
  | 'S' => 's' | 'T' => 't' | 'U' => 'u' | 'V' => 'v' | 'W' => 'w' | 'X' => 'x'
  | 'Y' => 'y' | 'Z' => 'z'
  | _ => c

def lowerL (cs : List Char) : List Char := cs.map asciiLower

/-- JS `trim` (both ends). -/
def trimL (cs : List Char) : List Char :=
  ((cs.dropWhile jsIsSpace).reverse.dropWhile jsIsSpace).reverse

/-- JS `trimEnd`. -/
def trimRightL (cs : List Char) : List Char :=
  (cs.reverse.dropWhile jsIsSpace).reverse

/-- `/^\d+$/.test s`: nonempty and all decimal digits. -/
def isDigitsL (cs : List Char) : Bool :=
  !cs.isEmpty && cs.all Char.isDigit

/-- `parseInt` on a digit-only string. -/
def digitsToNat (cs : List Char) : Nat :=
  cs.foldl (fun n c => n * 10 + (c.toNat - 48)) 0

/-- `split('\n')`: split on each newline, keeping empty pieces. -/
def splitOnNL : List Char → List (List Char)
  | [] => [[]]
  | c :: cs =>
    if c = '\n' then [] :: splitOnNL cs
    else
      match splitOnNL cs with
      | [] => [[c]]
      | l :: ls => (c :: l) :: ls

/-- Worker for `split(/\s+/)`: splits on maximal whitespace runs, keeping
the (possibly empty) pieces between them, as the JS regex split does.  The
`skipping` flag is true while inside a whitespace run (the accumulator is
then empty). -/
def wsSplitAux : List Char → List Char → Bool → List (List Char)
  | [], acc, skipping => if skipping then [[]] else [acc.reverse]
  | c :: rest, acc, skipping =>
    if skipping then
      if jsIsSpace c then wsSplitAux rest [] true
      else wsSplitAux rest [c] false
    else
      if jsIsSpace c then acc.reverse :: wsSplitAux rest [] true
      else wsSplitAux rest (c :: acc) false

/-- JS `s.split(/\s+/)`. -/
def jsSplitWS (cs : List Char) : List (List Char) := wsSplitAux cs [] false

/-- JS `hay.includes(pat)`. -/
def containsSub (hay pat : List Char) : Bool :=
  match hay with
  | [] => pat.isEmpty
  | _ :: t => pat.isPrefixOf hay || containsSub t pat

/-- Worker for `indexOf`: smallest absolute index `≥ i` at which `pat`
occurs, scanning the remaining hay. -/
def idxOfAux (pat : List Char) : List Char → Nat → Option Nat
  | [], i => if pat.isPrefixOf ([] : List Char) then some i else none
  | c :: t, i => if pat.isPrefixOf (c :: t) then some i else idxOfAux pat t (i + 1)

/-- JS `hay.indexOf(pat, start)` (as an `Option` instead of `-1`). -/
def idxOfFrom (hay pat : List Char) (start : Nat) : Option Nat :=
  idxOfAux pat (hay.drop start) start

/-- The `while ((currentPos = indexOf(..., currentPos + 1)) !== -1)` loop
collecting all (non-overlapping-start) occurrence positions; fuelled to
make termination obvious (`fuel = hay.length + 1` always suffices for a
nonempty pattern). -/
def collectStartsAux (hay pat : List Char) : Nat → Nat → List Nat
  | _, 0 => []
  | start, fuel + 1 =>
    match idxOfFrom hay pat start with
    | none => []
    | some i => i :: collectStartsAux hay pat (i + 1) fuel

def collectStarts (hay pat : List Char) : List Nat :=
  collectStartsAux hay pat 0 (hay.length + 1)

/-- `movementParts.join(" ")`. -/
def joinSpaceL (ps : List (List Char)) : List Char :=
  List.intercalate [' '] ps

/-! ## Data model (`types.ts`) -/

structure Exercise where
  id : String
  name : String
deriving DecidableEq, Repr

structure ExerciseSet where
  setNumber : Nat
  weight : String
  reps : String
  completed : Bool
deriving DecidableEq, Repr

structure LoggedExercise where
  exerciseId : String
  name : String
  sets : List ExerciseSet
  notes : Option String
deriving DecidableEq, Repr

structure DailyLog where
  date : String
  exercises : List LoggedExercise
deriving DecidableEq, Repr

structure WeeklyTemplateExercise where
  exerciseId : String
  targetSets : Nat
  targetReps : Option String
  originalIndex : Option Nat
deriving DecidableEq, Repr

structure WeeklyTemplateDay where
  dayOfWeek : Nat
  exercises : List WeeklyTemplateExercise
deriving DecidableEq, Repr

structure Group where
  id : String
  name : String
  ownerId : String
  inviteCode : String
  sharedTemplate : List WeeklyTemplateDay
  lastUpdated : String
deriving DecidableEq, Repr

structure AppData where
  userId : String
  exercises : List Exercise
  weeklyTemplate : List WeeklyTemplateDay
  dailyLogs : List DailyLog
  groups : List Group
  activeSyncedGroupId : Option String
deriving DecidableEq, Repr

structure OneRepMaxDataPoint where
  date : String
  exerciseName : String
  predicted1RM : ℚ
deriving DecidableEq, Repr

structure ParsedCSVExercisePlanItem where
  name : String
  targetSets : Nat
  targetReps : Option String
  originalIndex : Option Nat
deriving DecidableEq, Repr

/-! ## `constants.ts` -/

def DAYS_OF_WEEK : List String :=
  ["Sunday", "Monday", "Tuesday", "Wednesday", "Thursday", "Friday", "Saturday"]

/-- `calculateEpley1RM` from `constants.ts`:
`if (reps <= 0 || weight <= 0) return 0; if (reps === 1) return weight;
return weight * (1 + reps / 30);`. -/
def calculateEpley1RM (weight reps : ℚ) : ℚ :=
  if reps ≤ 0 ∨ weight ≤ 0 then 0
  else if reps = 1 then weight
  else weight * (1 + reps / 30)

/-! ## Data service (`dataService.ts`): template / group / log operations -/

/-- `updateWeeklyTemplate`: replace the template and clear the synced group. -/
def updateWeeklyTemplate (data : AppData) (newTemplate : List WeeklyTemplateDay) : AppData :=
  { data with weeklyTemplate := newTemplate, activeSyncedGroupId := none }

/-- `desyncActiveGroup`: `if (data.activeSyncedGroupId)` — the guard is JS
truthiness, so an empty-string id is falsy and the state is returned
unchanged (`activeSyncedGroupId` still `""`). -/
def desyncActiveGroup (data : AppData) : AppData :=
  match data.activeSyncedGroupId with
  | some s => if s = "" then data else { data with activeSyncedGroupId := none }
  | none => data

/-- `upsertDailyLog`; `new Date(d).getTime()` is abstracted by `time`. -/
def upsertDailyLog (time : String → Int) (data : AppData) (log : DailyLog) : AppData :=
  let newLogs :=
    match data.dailyLogs.findIdx? (fun dlog => dlog.date == log.date) with
    | some i => data.dailyLogs.set i log
    | none => data.dailyLogs ++ [log]
  { data with
    dailyLogs := newLogs.mergeSort (fun a b => time a.date ≤ time b.date) }

/-- `applyGroupTemplateToUser`. -/
def applyGroupTemplateToUser (appData : AppData) (groupId : String) : AppData :=
  match appData.groups.find? (fun g => g.id == groupId) with
  | none => appData
  | some group =>
    { appData with
      weeklyTemplate := group.sharedTemplate,
      activeSyncedGroupId := some group.id }

/-! ## Data service: persistence (`loadData` / `saveData` / `addExercise`) -/

/-- A stored weekly-template entry as it may appear in the persisted JSON
document: the entry itself or either field may be absent (`null`). -/
structure PartialDay where
  dayOfWeek : Option Nat
  exercises : Option (List WeeklyTemplateExercise)
deriving DecidableEq, Repr

/-- The persisted root document with every field possibly absent, as
`JSON.parse` of an old or partial blob may produce. -/
structure PartialAppData where
  userId : Option String
  exercises : Option (List Exercise)
  weeklyTemplate : Option (List (Option PartialDay))
  dailyLogs : Option (List DailyLog)
  groups : Option (List Group)
  activeSyncedGroupId : Option String
deriving DecidableEq, Repr

def emptyPartialAppData : PartialAppData :=
  ⟨none, none, none, none, none, none⟩

/-- The comparator `(a, b) => a.name.localeCompare(b.name)` induces this
boolean "less or equal" used by the stable sort model. -/
def lcmpLe (lcmp : String → String → Int) (a b : String) : Bool :=
  lcmp a b ≤ 0

/-- `Array(7).fill(null).map((_, i) => ({ dayOfWeek: i, exercises: [] }))`. -/
def defaultWeeklyTemplate : List WeeklyTemplateDay :=
  (List.range 7).map (fun i => { dayOfWeek := i, exercises := [] })

/-- `loadData`: the stored document (`none` when `localStorage` has no or an
empty entry) is shape-repaired into a full `AppData`.  `localeCompare` is
abstracted by `lcmp` and `generateUniqueId()` by `freshId`.  JS falsiness of
the empty string is modelled for `userId` and `activeSyncedGroupId`. -/
def loadData (lcmp : String → String → Int) (stored : Option PartialAppData)
    (freshId : String) : AppData :=
  let base := stored.getD emptyPartialAppData
  let wt : List WeeklyTemplateDay :=
    match base.weeklyTemplate with
    | none => defaultWeeklyTemplate
    | some days =>
      if days.length ≠ 7 then defaultWeeklyTemplate
      else days.enum.map (fun p =>
        { dayOfWeek := (p.2.bind (fun d => d.dayOfWeek)).getD p.1,
          exercises := (p.2.bind (fun d => d.exercises)).getD [] })
  { userId :=
      match base.userId with
      | some s => if s = "" then freshId else s
      | none => freshId,
    exercises :=
      match base.exercises with
      | some exs => exs.mergeSort (fun a b => lcmpLe lcmp a.name b.name)
      | none => [],
    weeklyTemplate := wt,
    dailyLogs := base.dailyLogs.getD [],
    groups := base.groups.getD [],
    activeSyncedGroupId :=
      match base.activeSyncedGroupId with
      | some s => if s = "" then none else some s
      | none => none }

/-- `saveData` sorts the exercise list and serializes; the model returns the
state as serialized. -/
def saveData (lcmp : String → String → Int) (data : AppData) : AppData :=
  { data with
    exercises := data.exercises.mergeSort (fun a b => lcmpLe lcmp a.name b.name) }

def lowerStr (s : String) : String := String.mk (lowerL s.data)

def trimStr (s : String) : String := String.mk (trimL s.data)

/-- `addExercise`; `generateUniqueId()` is abstracted by `freshId`. -/
def addExercise (lcmp : String → String → Int) (data : AppData) (name : String)
    (freshId : String) : AppData × Option Exercise :=
  let trimmedName := trimStr name
  if trimmedName = "" then (data, none)
  else
    match data.exercises.find? (fun ex => lowerStr ex.name == lowerStr trimmedName) with
    | some existingExercise => (data, some existingExercise)
    | none =>
      let newExercise : Exercise := { id := freshId, name := trimmedName }
      let updatedExercises :=
        (data.exercises ++ [newExercise]).mergeSort
          (fun a b => lcmpLe lcmp a.name b.name)
      ({ data with exercises := updatedExercises }, some newExercise)

/-! ## Data service: 1RM progress calculation -/

/-- JS `parseFloat`, on inputs made of an optional sign, decimal digits, an
optional fraction and an optional exponent (the special `Infinity` literals
are outside this rational model).  `none` models `NaN`. -/
def jsParseFloat (s : String) : Option ℚ :=
  let cs0 := s.data.dropWhile jsIsSpace
  let sgn : ℚ := match cs0 with
    | '-' :: _ => -1
    | _ => 1
  let cs := match cs0 with
    | '+' :: r => r
    | '-' :: r => r
    | r => r
  let intD := cs.takeWhile Char.isDigit
  let cs1 := cs.dropWhile Char.isDigit
  let fracD := match cs1 with
    | '.' :: r => r.takeWhile Char.isDigit
    | _ => []
  let cs2 := match cs1 with
    | '.' :: r => r.dropWhile Char.isDigit
    | r => r
  if intD.isEmpty && fracD.isEmpty then none
  else
    let mant : ℚ := (digitsToNat intD : ℚ) + (digitsToNat fracD : ℚ) / (10 ^ fracD.length)
    let expDigits : List Char := match cs2 with
      | 'e' :: '+' :: d => d.takeWhile Char.isDigit
      | 'e' :: '-' :: d => d.takeWhile Char.isDigit
      | 'e' :: d => d.takeWhile Char.isDigit
      | 'E' :: '+' :: d => d.takeWhile Char.isDigit
      | 'E' :: '-' :: d => d.takeWhile Char.isDigit
      | 'E' :: d => d.takeWhile Char.isDigit
      | _ => []
    let expNeg : Bool := match cs2 with
      | 'e' :: '-' :: _ => true
      | 'E' :: '-' :: _ => true
      | _ => false
    let expo : Int :=
      if expDigits.isEmpty then 0
      else if expNeg then -(digitsToNat expDigits : Int)
      else (digitsToNat expDigits : Int)
    some (sgn * mant * (10 : ℚ) ^ expo)

/-- `parseFloat(x.toFixed(2))`: round to two decimals, ties away from the
smaller value (JS picks the larger candidate `n`). -/
def round2 (x : ℚ) : ℚ := ((round (x * 100) : ℤ) : ℚ) / 100

/-- The per-set update of `max1RMForDay` inside `calculate1RMData`. -/
def update1RM (acc : ℚ) (set : ExerciseSet) : ℚ :=
  match jsParseFloat set.weight with
  | none => acc
  | some weight =>
    let repsString := trimL set.reps.data
    if isDigitsL repsString then
      let reps : ℚ := (digitsToNat repsString : ℚ)
      if 0 < weight ∧ 0 < reps then
        let current1RM := calculateEpley1RM weight reps
        if acc < current1RM then current1RM else acc
      else acc
    else acc

/-- `calculate1RMData`; date comparison abstracted by `time`. -/
def calculate1RMData (time : String → Int) (data : AppData) : List OneRepMaxDataPoint :=
  let pts := data.dailyLogs.flatMap (fun log =>
    log.exercises.filterMap (fun loggedEx =>
      let max1RMForDay := loggedEx.sets.foldl update1RM 0
      if 0 < max1RMForDay then
        some { date := log.date, exerciseName := loggedEx.name,
               predicted1RM := round2 max1RMForDay }
      else none))
  pts.mergeSort (fun a b => time a.date ≤ time b.date)

/-! ## Data service: group import -/

/-- A parsed group-import blob: either the JSON text failed to parse (or
parsed to a value whose field access throws), or it produced a record whose
fields may each be absent. -/
inductive ImportInput where
  | badJSON : ImportInput
  | parsed : Option String → Option String → Option String → Option String →
      Option (List WeeklyTemplateDay) → Option String → ImportInput
deriving DecidableEq, Repr

/-- JS falsiness of an optional string field (`undefined`, `null` or `""`). -/
def falsyStr : Option String → Bool
  | none => true
  | some s => s == ""

/-- Materialize the successfully validated import as a `Group`. -/
def toGroup (id name ownerId inviteCode : Option String)
    (sharedTemplate : Option (List WeeklyTemplateDay)) (lastUpdated : Option String) : Group :=
  { id := id.getD "", name := name.getD "", ownerId := ownerId.getD "",
    inviteCode := inviteCode.getD "", sharedTemplate := sharedTemplate.getD [],
    lastUpdated := lastUpdated.getD "" }

def defaultGroup : Group := ⟨"", "", "", "", [], ""⟩

/-- `addGroupFromImport`; returns `(newData, error?, importedGroup?)`.
`new Date(s)` comparison is abstracted by `time`. -/
def addGroupFromImport (time : String → Int) (appData : AppData)
    (input : ImportInput) : AppData × Option String × Option Group :=
  match input with
  | .badJSON =>
    (appData, some "Failed to parse group data. Ensure it's valid JSON.", none)
  | .parsed id name ownerId inviteCode sharedTemplate lastUpdated =>
    if falsyStr id || falsyStr name || falsyStr ownerId || falsyStr inviteCode
        || sharedTemplate.isNone || falsyStr lastUpdated then
      (appData, some "Invalid group data format.", none)
    else
      let importedGroup := toGroup id name ownerId inviteCode sharedTemplate lastUpdated
      if appData.groups.any (fun g => g.id == importedGroup.id) then
        match appData.groups.findIdx? (fun g => g.id == importedGroup.id) with
        | some existingGroupIndex =>
          let old := appData.groups.getD existingGroupIndex defaultGroup
          if time importedGroup.lastUpdated > time old.lastUpdated
              ∧ old.ownerId ≠ appData.userId then
            ({ appData with groups := appData.groups.set existingGroupIndex importedGroup },
              none, some importedGroup)
          else
            (appData, some "Group already exists or local version is newer.", some old)
        | none =>
          ({ appData with groups := appData.groups ++ [importedGroup] },
            none, some importedGroup)
      else
        ({ appData with groups := appData.groups ++ [importedGroup] },
          none, some importedGroup)

/-! ## Heuristic plan-text parser (`extractWorkoutFromTextBlock`,
`parseFullWorkoutPlanFromText`) -/

/-- An extracted exercise before `originalIndex` tagging. -/
structure ParsedItemBase where
  name : String
  targetSets : Nat
  targetReps : Option String
deriving DecidableEq, Repr

/-- `/^\d+(s|ea|S|EA)?$/.test`. -/
def matchRepWithUnit (cs : List Char) : Bool :=
  let ds := cs.takeWhile Char.isDigit
  let rest := cs.dropWhile Char.isDigit
  !ds.isEmpty &&
    (rest == ([] : List Char) || rest == ['s'] || rest == ['S']
      || rest == ['e', 'a'] || rest == ['E', 'A'])

/-- `potentialReps.toLowerCase().endsWith('s')`. -/
def endsWithS (cs : List Char) : Bool :=
  (lowerL cs).getLast? == some 's'

/-- The `validRepPattern` regex
`/^(?:\d+(?:\s*(?:s|S|ea|EA|s\s*ea|S\s*EA))?)$/`. -/
def matchValidRep (cs : List Char) : Bool :=
  let ds := cs.takeWhile Char.isDigit
  let rest := cs.dropWhile Char.isDigit
  !ds.isEmpty &&
    (rest.isEmpty ||
      (let r := rest.dropWhile jsIsSpace
       r == ['s'] || r == ['S'] || r == ['e', 'a'] || r == ['E', 'A'] ||
         (match r with
          | 's' :: rr => rr.dropWhile jsIsSpace == ['e', 'a']
          | 'S' :: rr => rr.dropWhile jsIsSpace == ['E', 'A']
          | _ => false)))

/-- The reps string assembled right after the sets token is found
(`parts[setsIndex + 1]` through `parts[setsIndex + 3]`). -/
def repsAfterSets (parts : List (List Char)) (setsIndex : Nat) : Option (List Char) :=
  if setsIndex + 1 < parts.length then
    let potentialReps := parts.getD (setsIndex + 1) []
    if matchRepWithUnit potentialReps || isDigitsL potentialReps then
      if (isDigitsL potentialReps || endsWithS potentialReps)
          && decide (setsIndex + 2 < parts.length)
          && lowerL (parts.getD (setsIndex + 2) []) == ['e', 'a']
          && endsWithS potentialReps then
        some (potentialReps ++ ' ' :: parts.getD (setsIndex + 2) [])
      else if isDigitsL potentialReps && decide (setsIndex + 2 < parts.length)
          && (lowerL (parts.getD (setsIndex + 2) []) == ['s']
            || lowerL (parts.getD (setsIndex + 2) []) == ['e', 'a']) then
        if lowerL (parts.getD (setsIndex + 2) []) == ['s']
            && decide (setsIndex + 3 < parts.length)
            && lowerL (parts.getD (setsIndex + 3) []) == ['e', 'a'] then
          some (potentialReps ++ ' ' :: parts.getD (setsIndex + 2) []
            ++ ' ' :: parts.getD (setsIndex + 3) [])
        else
          some (potentialReps ++ ' ' :: parts.getD (setsIndex + 2) [])
      else some potentialReps
    else none
  else none

/-- `extractWorkoutFromTextBlock`: tokens before the first all-digit token
form the movement name (the loop pushes tokens and breaks at the first
all-digit one, i.e. `take` of the index found by `findIdx?`); that token is
the sets count; the next tokens may form the reps string. -/
def extractWorkoutFromTextBlock (textBlock : List Char) : Option ParsedItemBase :=
  let blockContent := trimL textBlock
  if blockContent.isEmpty then none
  else
    let parts := (jsSplitWS blockContent).filter (fun p => !p.isEmpty)
    if parts.length < 2 then none
    else
      match parts.findIdx? isDigitsL with
      | none => none
      | some setsIndex =>
        let movementParts := parts.take setsIndex
        let setsStr := parts.getD setsIndex []
        let repsStr0 := repsAfterSets parts setsIndex
        let name := trimL (joinSpaceL movementParts)
        if name.isEmpty then none
        else
          let sets := digitsToNat setsStr
          if sets = 0 ∨ 100 ≤ sets then none
          else
            let repsStr1 :=
              match repsStr0 with
              | some r =>
                if ¬ matchValidRep (trimL r) then
                  if ¬ isDigitsL (trimL r) then none else some r
                else some r
              | none => none
            let repsStr2 :=
              match repsStr1 with
              | some r => some r
              | none =>
                if setsIndex + 1 < parts.length
                    ∧ isDigitsL (parts.getD (setsIndex + 1) []) then
                  some (parts.getD (setsIndex + 1) [])
                else none
            some { name := String.mk name, targetSets := sets,
                   targetReps := repsStr2.map (fun r => String.mk (trimL r)) }

/-- `rawText.trim().split('\n').map(line => line.trimEnd())`. -/
def linesOf (rawText : String) : List (List Char) :=
  (splitOnNL (trimL rawText.data)).map trimRightL

/-- The `findIndex` over `DAYS_OF_WEEK` against the trimmed line. -/
def dayNameIdx (lineContent : List Char) : Option Nat :=
  DAYS_OF_WEEK.findIdx? (fun day => lowerL day.data == lowerL lineContent)

/-- The per-line day check, including the single-token confirmation. -/
def dayCheck (line : List Char) : Option Nat :=
  let lineContent := trimL line
  match dayNameIdx lineContent with
  | none => none
  | some dayIndex =>
    let parts := jsSplitWS lineContent
    if parts.length == 1
        && lowerL (parts.headD []) == lowerL ((DAYS_OF_WEEK.getD dayIndex "").data) then
      some dayIndex
    else none

/-- The day-detection loop; returns `(dayOfWeek, line index)`. -/
def findDayFrom : List (List Char) → Nat → Option (Nat × Nat)
  | [], _ => none
  | l :: ls, i =>
    match dayCheck l with
    | some di => some (di, i)
    | none => findDayFrom ls (i + 1)

/-- Header test: line mentions movement, sets and reps. -/
def hdrPredMSR (line : List Char) : Bool :=
  let lineLower := lowerL line
  containsSub lineLower "movement".data && containsSub lineLower "sets".data
    && containsSub lineLower "reps".data

/-- Header test: line mentions movement and sets. -/
def hdrPredMS (line : List Char) : Bool :=
  let lineLower := lowerL line
  containsSub lineLower "movement".data && containsSub lineLower "sets".data

/-- First line at index `≥ i` satisfying `p`, with its index. -/
def findLineFrom (p : List Char → Bool) : List (List Char) → Nat → Option (Nat × List Char)
  | [], _ => none
  | l :: ls, i => if p l then some (i, l) else findLineFrom p ls (i + 1)

/-- The two-pass header search of `parseFullWorkoutPlanFromText`. -/
def headerSearch (lines : List (List Char)) (start : Nat) : Option (Nat × List Char) :=
  match findLineFrom hdrPredMSR (lines.drop start) start with
  | some h => some h
  | none => findLineFrom hdrPredMS (lines.drop start) start

/-- Single-day branch: extract from each nonblank line, tagging successes
with the running `exerciseCounterForDay`. -/
def collectDayItems : List (List Char) → Nat → List ParsedCSVExercisePlanItem
  | [], _ => []
  | l :: ls, n =>
    if (trimL l).isEmpty then collectDayItems ls n
    else
      match extractWorkoutFromTextBlock l with
      | some b => ⟨b.name, b.targetSets, b.targetReps, some n⟩ :: collectDayItems ls (n + 1)
      | none => collectDayItems ls n

structure ColDef where
  day : Nat
  start : Nat
  stop : Nat
deriving DecidableEq, Repr

def dayOrderForColumns : List Nat := [1, 2, 4, 5]

/-- Column definitions from the `movement` occurrence offsets in the
lowercased header: at most four, assigned to Monday, Tuesday, Thursday,
Friday; each column ends just before the next occurrence, the last at the
header's end. -/
def columnDefinitions (colStarts : List Nat) (headerLen : Nat) : List ColDef :=
  (colStarts.enum.take 4).map (fun p =>
    { day := dayOrderForColumns.getD p.1 0,
      start := p.2,
      stop := if p.1 + 1 < colStarts.length then colStarts.getD (p.1 + 1) 0 - 1
              else headerLen })

/-- `currentLine.substring(min(start, len), min(stop + 1, len))`. -/
def blockOf (cd : ColDef) (line : List Char) : List Char :=
  (line.take (min (cd.stop + 1) line.length)).drop (min cd.start line.length)

/-- One data line of the column branch: try each column on the line,
appending a success to its day's bucket with `originalIndex` the bucket's
current length. -/
def processCols (line : List Char) (temp : List (List ParsedCSVExercisePlanItem))
    (defs : List ColDef) : List (List ParsedCSVExercisePlanItem) :=
  defs.foldl (fun t cd =>
    match extractWorkoutFromTextBlock (blockOf cd line) with
    | some b =>
      t.set cd.day (t.getD cd.day []
        ++ [⟨b.name, b.targetSets, b.targetReps, some (t.getD cd.day []).length⟩])
    | none => t) temp

/-- `parseFullWorkoutPlanFromText`, returning the result dictionary as an
association list in ascending-key order (JS iterates integer-like keys in
ascending order). -/
def parseFullWorkoutPlanFromText (rawText : String) :
    List (Nat × List ParsedCSVExercisePlanItem) :=
  let lines := linesOf rawText
  let dayDetect := findDayFrom (lines.take 5) 0
  let searchStart : Nat :=
    match dayDetect with
    | some dl => dl.2 + 1
    | none => 0
  match headerSearch lines searchStart with
  | none => []
  | some (headerLineIndex, headerLineContent) =>
    let dataLines := lines.drop (headerLineIndex + 1)
    match dayDetect with
    | some dl => [(dl.1, collectDayItems dataLines 0)]
    | none =>
      let colStarts := collectStarts (lowerL headerLineContent) "movement".data
      if colStarts.isEmpty then []
      else
        let defs := columnDefinitions colStarts headerLineContent.length
        let temp := List.replicate 7 ([] : List ParsedCSVExercisePlanItem)
        let final := dataLines.foldl
          (fun t l => if (trimL l).isEmpty then t else processCols l t defs) temp
        (List.range 7).filterMap (fun d =>
          let v := final.getD d []
          if v.isEmpty then none else some (d, v))

/-! ## Concrete sample values used by witnesses and counterexamples -/

def sampleData : AppData :=
  { userId := "u1", exercises := [], weeklyTemplate := defaultWeeklyTemplate,
    dailyLogs := [], groups := [], activeSyncedGroupId := some "g1" }

/-- A state whose synced-group id is the falsy empty string. -/
def dataEmptySync : AppData :=
  { userId := "u1", exercises := [], weeklyTemplate := defaultWeeklyTemplate,
    dailyLogs := [], groups := [], activeSyncedGroupId := some "" }

def sampleGroup : Group :=
  { id := "g1", name := "Crew", ownerId := "owner9", inviteCode := "ABC234",
    sharedTemplate := [⟨1, [⟨"ex1", 3, some "10", none⟩]⟩], lastUpdated := "2024-01-02" }

def sampleDataWithGroup : AppData :=
  { userId := "u1", exercises := [], weeklyTemplate := defaultWeeklyTemplate,
    dailyLogs := [], groups := [sampleGroup], activeSyncedGroupId := none }

/-- `findIndex` + in-place assignment (else push): replace the first element
satisfying `p`, appending when none does. -/
def replaceFirstOrAppend {α : Type} (p : α → Bool) (a : α) : List α → List α
  | [] => [a]
  | x :: xs => if p x then a :: xs else x :: replaceFirstOrAppend p a xs

def sampleLogMon : DailyLog :=
  { date := "2024-01-01",
    exercises := [⟨"ex1", "Bench", [⟨1, "100", "5", true⟩], none⟩] }

def sampleLogTue : DailyLog :=
  { date := "2024-01-02",
    exercises := [⟨"ex1", "Bench", [⟨1, "60", "", false⟩], none⟩] }

def sampleDataLogs : AppData :=
  { userId := "u1", exercises := [], weeklyTemplate := defaultWeeklyTemplate,
    dailyLogs := [sampleLogMon], groups := [], activeSyncedGroupId := none }

/-- A concrete date-time function used by witnesses (the theorems hold for
every such abstraction of `new Date(s).getTime()`). -/
def timeDigits (s : String) : Int :=
  (s.toList.filter Char.isDigit).foldl (fun a c => a * 10 + (c.toNat - 48)) 0

/-- Shape repair of one stored weekly-template slot: keep the stored
`dayOfWeek` (the slot index when the entry or field is null) and the stored
exercise list (empty when null). -/
def repairStoredDay (i : Nat) (d : Option PartialDay) : WeeklyTemplateDay :=
  { dayOfWeek := (d.bind (fun x => x.dayOfWeek)).getD i,
    exercises := (d.bind (fun x => x.exercises)).getD [] }

/-- A trivial concrete `localeCompare` abstraction for witnesses. -/
def lcmpZero : String → String → Int := fun _ _ => 0

/-- A concrete `localeCompare` abstraction given by the lexicographic string
order. -/
def lcmpLex (a b : String) : Int := if a < b then -1 else if b < a then 1 else 0

/-- A stored document whose 7-entry template starts with `dayOfWeek = 5`. -/
def storedBadTemplate : PartialAppData :=
  { userId := some "u1", exercises := none,
    weeklyTemplate := some [some ⟨some 5, some []⟩, none, none, none, none, none, none],
    dailyLogs := none, groups := none, activeSyncedGroupId := none }

/-- Claim-side condition: some required field of the import is missing
(absent, as the claim says — not merely empty). -/
def inputMissingField : ImportInput → Prop
  | .badJSON => False
  | .parsed id name ownerId inviteCode sharedTemplate lastUpdated =>
    id = none ∨ name = none ∨ ownerId = none ∨ inviteCode = none
      ∨ sharedTemplate = none ∨ lastUpdated = none

/-- The group a parsed import materializes to. -/
def inputGroup : ImportInput → Option Group
  | .badJSON => none
  | .parsed id name ownerId inviteCode st lu =>
    some (toGroup id name ownerId inviteCode st lu)

/-- Claim-side condition: a group with the imported id already exists, and
the imported copy is not strictly newer or the local copy is owned by the
user. -/
def sameIdConflict (time : String → Int) (d : AppData) (inp : ImportInput) : Prop :=
  match inputGroup inp with
  | none => False
  | some g => ∃ old ∈ d.groups, old.id = g.id
      ∧ ¬(time g.lastUpdated > time old.lastUpdated ∧ old.ownerId ≠ d.userId)

/-- Claim-side condition: the state differs at most in the groups list. -/
def sameExceptGroups (d r : AppData) : Prop :=
  r.userId = d.userId ∧ r.exercises = d.exercises
    ∧ r.weeklyTemplate = d.weeklyTemplate ∧ r.dailyLogs = d.dailyLogs
    ∧ r.activeSyncedGroupId = d.activeSyncedGroupId

/-- Claim-side condition: exactly one group appended or replaced. -/
def groupsOneChanged (old updated : List Group) : Prop :=
  (∃ g, updated = old ++ [g]) ∨ (∃ i g, i < old.length ∧ updated = old.set i g)

/-- C8's main disjunction exactly as the claim states it: either the data is
returned unchanged with an error (in the three listed situations), or the
result differs from the input only in the groups list with exactly one
group appended or replaced. -/
def claimC8Main (time : String → Int) (d : AppData) (inp : ImportInput) : Prop :=
  ((addGroupFromImport time d inp).1 = d
      ∧ (addGroupFromImport time d inp).2.1 ≠ none
      ∧ (inp = ImportInput.badJSON ∨ inputMissingField inp
          ∨ sameIdConflict time d inp))
  ∨ ((addGroupFromImport time d inp).2.1 = none
      ∧ sameExceptGroups d (addGroupFromImport time d inp).1
      ∧ groupsOneChanged d.groups (addGroupFromImport time d inp).1.groups)

/-- An import blob whose required fields are all present but whose id is the
empty string: valid JSON, no field missing, no same-id group. -/
def emptyIdImport : ImportInput :=
  .parsed (some "") (some "Crew") (some "owner9") (some "ABC234") (some [])
    (some "2024-01-02")

/-- The C3 counterexample text: the weekday line sits at line index 5, past
the five-line detection window. -/
def c3Text : String := "x1\nx2\nx3\nx4\nx5\nTuesday\nmovement sets reps\nSquat 3 5"

/-- A plan text with a weekday line within the five-line window. -/
def c3Good : String := "Monday\nMovement  Sets  Reps\nBench Press 3 10\n\nSquat 5 5"

/-- A small state with one exercise, for the `addExercise` witness. -/
def dataB : AppData :=
  { userId := "u1", exercises := [⟨"e1", "Bench"⟩],
    weeklyTemplate := defaultWeeklyTemplate, dailyLogs := [], groups := [],
    activeSyncedGroupId := none }

/-- A well-formed import with a fresh id. -/
def goodImport : ImportInput :=
  .parsed (some "g2") (some "Crew") (some "owner9") (some "ABC234")
    (some [⟨1, [⟨"ex1", 3, none, none⟩]⟩]) (some "2024-01-02")

/-- Claim-side: the Epley estimate of one set, when valid (weight parses to
a positive number, trimmed reps is all digits and parses to a positive
integer). -/
def setEpley (st : ExerciseSet) : Option ℚ :=
  match jsParseFloat st.weight with
  | none => none
  | some w =>
    let rs := trimL st.reps.data
    if isDigitsL rs then
      if 0 < w ∧ 0 < (digitsToNat rs : ℚ) then
        some (calculateEpley1RM w (digitsToNat rs))
      else none
    else none

/-- Claim-side: the Epley estimates of the valid sets of a logged exercise. -/
def validEpleys (sets : List ExerciseSet) : List ℚ :=
  sets.filterMap setEpley

/-- Claim-side: at most one data point per (log, logged exercise), carrying
the rounded maximum of the valid Epley estimates; none when no set is
valid. -/
def specPoints (data : AppData) : List OneRepMaxDataPoint :=
  data.dailyLogs.flatMap (fun log =>
    log.exercises.filterMap (fun lex =>
      ((validEpleys lex.sets).max?).map (fun m =>
        { date := log.date, exerciseName := lex.name, predicted1RM := round2 m })))

/-- Claim-side: the weekday index when the trimmed line consists exactly of
a weekday name, case-insensitively. -/
def dayOfLine (l : List Char) : Option Nat := dayNameIdx (trimL l)

/-- Tag extracted items with consecutive `originalIndex` values from `n`. -/
def tagFrom : Nat → List ParsedItemBase → List ParsedCSVExercisePlanItem
  | _, [] => []
  | n, b :: rest => ⟨b.name, b.targetSets, b.targetReps, some n⟩ :: tagFrom (n + 1) rest

/-- Tag extracted items with consecutive `originalIndex` values from 0. -/
def tagItems (bs : List ParsedItemBase) : List ParsedCSVExercisePlanItem :=
  tagFrom 0 bs

/-- Claim-side: the items one column yields over the data lines, tagged
with consecutive `originalIndex` values from 0. -/
def columnItems (cd : ColDef) (ls : List (List Char)) : List ParsedCSVExercisePlanItem :=
  tagItems (ls.filterMap (fun l => extractWorkoutFromTextBlock (blockOf cd l)))

/-- A two-column plan text with no weekday line, for the C10 witness. -/
def c10Text : String :=
  "Movement Sets Reps           Movement Sets Reps\nBench Press 3 10             Squat 5 5\nRow 3 8"

/-! # Theorems -/

/-- C4, counterexample: a stored document with exactly 7 template entries is
kept entry-wise, so a stored `dayOfWeek` of 5 in slot 0 survives the load
and the template is not the weekdays 0 through 6 in order. -/
theorem C4_load_counterexample :
    (loadData lcmpZero (some storedBadTemplate) "fresh").weeklyTemplate.length = 7
    ∧ (loadData lcmpZero (some storedBadTemplate) "fresh").weeklyTemplate.map
        (fun d => d.dayOfWeek) = [5, 1, 2, 3, 4, 5, 6]
    ∧ ([5, 1, 2, 3, 4, 5, 6] : List Nat) ≠ [0, 1, 2, 3, 4, 5, 6] := by
  refine ⟨by decide, by decide, by decide⟩

/-- C4, amended: `loadData` always yields exactly 7 template entries; they
are the weekdays 0 through 6 in order with empty exercise lists when the
stored template is absent or does not have exactly 7 entries, and otherwise
each stored entry is kept with nulls repaired slot-wise; absent `exercises`,
`dailyLogs` and `groups` collections default to empty lists. -/
theorem C4_load_shape (lcmp : String → String → Int) (stored : Option PartialAppData)
    (freshId : String) :
    (loadData lcmp stored freshId).weeklyTemplate.length = 7
    ∧ ((stored.getD emptyPartialAppData).weeklyTemplate = none →
        (loadData lcmp stored freshId).weeklyTemplate = defaultWeeklyTemplate)
    ∧ (∀ days, (stored.getD emptyPartialAppData).weeklyTemplate = some days →
        days.length ≠ 7 →
        (loadData lcmp stored freshId).weeklyTemplate = defaultWeeklyTemplate)
    ∧ (∀ days, (stored.getD emptyPartialAppData).weeklyTemplate = some days →
        days.length = 7 →
        (loadData lcmp stored freshId).weeklyTemplate
          = days.enum.map (fun p => repairStoredDay p.1 p.2))
    ∧ defaultWeeklyTemplate.map (fun d => d.dayOfWeek) = List.range 7
    ∧ (∀ d ∈ defaultWeeklyTemplate, d.exercises = [])
    ∧ ((stored.getD emptyPartialAppData).dailyLogs = none →
        (loadData lcmp stored freshId).dailyLogs = [])
    ∧ ((stored.getD emptyPartialAppData).groups = none →
        (loadData lcmp stored freshId).groups = [])
    ∧ ((stored.getD emptyPartialAppData).exercises = none →
        (loadData lcmp stored freshId).exercises = []) := by
  refine ⟨?_, ?_, ?_, ?_, by decide, by decide, ?_, ?_, ?_⟩
  · unfold loadData
    cases h : (stored.getD emptyPartialAppData).weeklyTemplate with
    | none =>
      simp [h]
      decide
    | some days =>
      by_cases h7 : days.length = 7
      · simp [h, h7]
      · simp [h, h7]
        decide
  · intro h
    unfold loadData
    simp [h]
  · intro days h h7
    unfold loadData
    simp [h, h7]
  · intro days h h7
    unfold loadData
    simp [h, h7, repairStoredDay]
  · intro h
    unfold loadData
    simp [h]
  · intro h
    unfold loadData
    simp [h]
  · intro h
    unfold loadData
    simp [h]

/-- C8, counterexample: importing a group whose `id` field is present but
empty hits the falsiness check and yields the "invalid format" error even
though no field is missing, the JSON is valid and no same-id group exists;
neither branch of the claim's disjunction holds. -/
theorem C8_import_counterexample : ¬ claimC8Main timeDigits sampleData emptyIdImport := by
  intro h
  rcases h with ⟨-, -, h3⟩ | ⟨h4, -⟩
  · rcases h3 with h | h | h
    · exact absurd h (by decide)
    · simp [inputMissingField, emptyIdImport] at h
    · simp [sameIdConflict, inputGroup, emptyIdImport, sampleData] at h
  · exact absurd h4 (by decide)

/-- C8, amended: `addGroupFromImport` returns the state unchanged with an
error when the JSON is invalid, when a required field is missing or empty
(`sharedTemplate`: missing), or when a same-id group exists and the import
is not strictly newer or the local copy is user-owned; otherwise it appends
the imported group when its id is fresh, and replaces the same-id local
group exactly when the import is strictly newer and the local copy is not
user-owned. -/
theorem C8_import_amended (time : String → Int) (d : AppData) (inp : ImportInput) :
    (inp = ImportInput.badJSON →
      addGroupFromImport time d inp
        = (d, some "Failed to parse group data. Ensure it's valid JSON.", none))
    ∧ (∀ id name ownerId inviteCode st lu,
        inp = ImportInput.parsed id name ownerId inviteCode st lu →
        (falsyStr id || falsyStr name || falsyStr ownerId || falsyStr inviteCode
          || st.isNone || falsyStr lu) = true →
        addGroupFromImport time d inp = (d, some "Invalid group data format.", none))
    ∧ (∀ id name ownerId inviteCode st lu,
        inp = ImportInput.parsed id name ownerId inviteCode st lu →
        (falsyStr id || falsyStr name || falsyStr ownerId || falsyStr inviteCode
          || st.isNone || falsyStr lu) = false →
        ((∀ og ∈ d.groups, og.id ≠ (toGroup id name ownerId inviteCode st lu).id) →
          addGroupFromImport time d inp
            = ({ d with
                  groups := d.groups ++ [toGroup id name ownerId inviteCode st lu] },
                none, some (toGroup id name ownerId inviteCode st lu)))
        ∧ (∀ i, d.groups.findIdx?
              (fun g => g.id == (toGroup id name ownerId inviteCode st lu).id) = some i →
            ((time (toGroup id name ownerId inviteCode st lu).lastUpdated
                  > time (d.groups.getD i defaultGroup).lastUpdated
                ∧ (d.groups.getD i defaultGroup).ownerId ≠ d.userId) →
              addGroupFromImport time d inp
                = ({ d with
                      groups := d.groups.set i (toGroup id name ownerId inviteCode st lu) },
                    none, some (toGroup id name ownerId inviteCode st lu)))
            ∧ (¬(time (toGroup id name ownerId inviteCode st lu).lastUpdated
                  > time (d.groups.getD i defaultGroup).lastUpdated
                ∧ (d.groups.getD i defaultGroup).ownerId ≠ d.userId) →
              addGroupFromImport time d inp
                = (d, some "Group already exists or local version is newer.",
                    some (d.groups.getD i defaultGroup))))) := by
  refine ⟨?_, ?_, ?_⟩
  · rintro rfl
    rfl
  · rintro id name ownerId inviteCode st lu rfl hf
    simp [addGroupFromImport, hf]
  · rintro id name ownerId inviteCode st lu rfl hf
    refine ⟨?_, ?_⟩
    · intro hno
      have hany : d.groups.any
          (fun g => g.id == (toGroup id name ownerId inviteCode st lu).id) = false := by
        rw [List.any_eq_false]
        intro g hg
        simpa using hno g hg
      simp [addGroupFromImport, hf, hany]
    · intro i hidx
      have hany : d.groups.any
          (fun g => g.id == (toGroup id name ownerId inviteCode st lu).id) = true := by
        have hs := @List.findIdx?_isSome _ d.groups
          (fun g => g.id == (toGroup id name ownerId inviteCode st lu).id)
        rw [hidx] at hs
        exact hs.symm
      constructor
      · intro hc
        obtain ⟨h1, h2⟩ := hc
        rw [List.getD_eq_getElem?_getD] at h1 h2
        simp [addGroupFromImport, hf, hany, hidx, h1, h2]
      · intro hc
        rw [List.getD_eq_getElem?_getD] at hc
        simp only [gt_iff_lt] at hc
        simp [addGroupFromImport, hf, hany, hidx, hc]

theorem C8_import_amended_witness :
    addGroupFromImport timeDigits sampleData goodImport
      = ({ sampleData with
            groups := sampleData.groups
              ++ [toGroup (some "g2") (some "Crew") (some "owner9") (some "ABC234")
                    (some [⟨1, [⟨"ex1", 3, none, none⟩]⟩]) (some "2024-01-02")] },
          none,
          some (toGroup (some "g2") (some "Crew") (some "owner9") (some "ABC234")
            (some [⟨1, [⟨"ex1", 3, none, none⟩]⟩]) (some "2024-01-02"))) := by
  have h := (C8_import_amended timeDigits sampleData goodImport).2.2
    (some "g2") (some "Crew") (some "owner9") (some "ABC234")
    (some [⟨1, [⟨"ex1", 3, none, none⟩]⟩]) (some "2024-01-02") rfl (by decide)
  exact h.1 (by decide)

theorem lcmpLexLe_iff (a b : String) : lcmpLe lcmpLex a b = true ↔ a ≤ b := by
  unfold lcmpLe lcmpLex
  rcases lt_trichotomy a b with h | h | h
  · simp [h, le_of_lt h]
  · subst h
    simp
  · have h1 : ¬ a < b := asymm h
    simp [h1, h, not_le.mpr h]

theorem lcmpLexLe_trans (a b c : String) (hab : lcmpLe lcmpLex a b = true)
    (hbc : lcmpLe lcmpLex b c = true) : lcmpLe lcmpLex a c = true :=
  (lcmpLexLe_iff a c).mpr
    (le_trans ((lcmpLexLe_iff a b).mp hab) ((lcmpLexLe_iff b c).mp hbc))

theorem lcmpLexLe_total (a b : String) :
    (lcmpLe lcmpLex a b || lcmpLe lcmpLex b a) = true := by
  rcases le_total a b with h | h
  · simp [(lcmpLexLe_iff a b).mpr h]
  · simp [(lcmpLexLe_iff b a).mpr h]

theorem find_ci_unique (trimmed : String) (l : List Exercise)
    (hd : l.Pairwise (fun a b => lowerStr a.name ≠ lowerStr b.name)) :
    ∀ ex ∈ l, lowerStr ex.name = lowerStr trimmed →
      l.find? (fun e => lowerStr e.name == lowerStr trimmed) = some ex := by
  induction l with
  | nil => simp
  | cons x xs ih =>
    rcases List.pairwise_cons.mp hd with ⟨hx, hxs⟩
    intro ex hex hm
    rcases List.mem_cons.mp hex with rfl | hex
    · exact List.find?_cons_of_pos _ (by simpa using hm)
    · have hne : lowerStr x.name ≠ lowerStr trimmed :=
        fun hcontra => (hx ex hex) (hcontra.trans hm.symm)
      rw [List.find?_cons_of_neg _ (by simpa using hne)]
      exact ih hxs ex hex hm

/-- C5, counterexample: with no exercises and the all-whitespace name
`" "`, the trimmed name matches no existing exercise, so the claim as
stated demands one new exercise to be added and the list re-sorted; the
code instead returns the state unchanged with no exercise at all (the
empty-name guard). -/
theorem C5_add_exercise_counterexample :
    sampleData.exercises.Pairwise (fun a b => lowerStr a.name ≠ lowerStr b.name)
    ∧ sampleData.exercises.Pairwise (fun a b => lcmpLe lcmpLex a.name b.name = true)
    ∧ (∀ ex ∈ sampleData.exercises, lowerStr ex.name ≠ lowerStr (trimStr " "))
    ∧ (addExercise lcmpLex sampleData " " "fid").1 = sampleData
    ∧ (addExercise lcmpLex sampleData " " "fid").2 = none
    ∧ (addExercise lcmpLex sampleData " " "fid").1.exercises.length
        ≠ sampleData.exercises.length + 1 := by
  decide

/-- C5, amended: for names whose trimmed form is nonempty, `addExercise`
returns the state unchanged with the (unique) case-insensitive match when
one exists, and otherwise adds exactly one new exercise, keeping the list a
sorted, case-insensitively duplicate-free permutation of the old list plus
the new entry; an empty trimmed name leaves the state unchanged with no
exercise; `saveData` sorts the exercise list (as a permutation of it)
before serializing. -/
theorem C5_add_exercise (lcmp : String → String → Int)
    (htr : ∀ a b c : String, lcmpLe lcmp a b = true → lcmpLe lcmp b c = true →
      lcmpLe lcmp a c = true)
    (hto : ∀ a b : String, (lcmpLe lcmp a b || lcmpLe lcmp b a) = true)
    (data : AppData) (name fid : String)
    (hdist : data.exercises.Pairwise (fun a b => lowerStr a.name ≠ lowerStr b.name))
    (hsort : data.exercises.Pairwise (fun a b => lcmpLe lcmp a.name b.name = true)) :
    (trimStr name = "" → addExercise lcmp data name fid = (data, none))
    ∧ (trimStr name ≠ "" →
        ∀ ex ∈ data.exercises, lowerStr ex.name = lowerStr (trimStr name) →
        addExercise lcmp data name fid = (data, some ex))
    ∧ ((∀ ex ∈ data.exercises, lowerStr ex.name ≠ lowerStr (trimStr name)) →
        trimStr name ≠ "" →
        (addExercise lcmp data name fid).2 = some ⟨fid, trimStr name⟩
        ∧ (addExercise lcmp data name fid).1.exercises.Perm
            (data.exercises ++ [⟨fid, trimStr name⟩])
        ∧ (addExercise lcmp data name fid).1.exercises.length
            = data.exercises.length + 1
        ∧ (addExercise lcmp data name fid).1.exercises.Pairwise
            (fun a b => lowerStr a.name ≠ lowerStr b.name)
        ∧ (addExercise lcmp data name fid).1.exercises.Pairwise
            (fun a b => lcmpLe lcmp a.name b.name = true)
        ∧ (addExercise lcmp data name fid).1.userId = data.userId
        ∧ (addExercise lcmp data name fid).1.weeklyTemplate = data.weeklyTemplate
        ∧ (addExercise lcmp data name fid).1.dailyLogs = data.dailyLogs
        ∧ (addExercise lcmp data name fid).1.groups = data.groups
        ∧ (addExercise lcmp data name fid).1.activeSyncedGroupId
            = data.activeSyncedGroupId)
    ∧ (saveData lcmp data).exercises.Pairwise
        (fun a b => lcmpLe lcmp a.name b.name = true)
    ∧ (saveData lcmp data).exercises.Perm data.exercises := by
  refine ⟨?_, ?_, ?_, ?_, ?_⟩
  · intro h
    simp [addExercise, h]
  · intro hne ex hex hm
    have hf := find_ci_unique (trimStr name) data.exercises hdist ex hex hm
    simp [addExercise, hne, hf]
  · intro hno hne
    have hf : data.exercises.find?
        (fun e => lowerStr e.name == lowerStr (trimStr name)) = none := by
      rw [List.find?_eq_none]
      intro x hx
      simpa using hno x hx
    have hex : (addExercise lcmp data name fid).1.exercises
        = (data.exercises ++ [(⟨fid, trimStr name⟩ : Exercise)]).mergeSort
            (fun a b => lcmpLe lcmp a.name b.name) := by
      simp [addExercise, hne, hf]
    have hperm : (addExercise lcmp data name fid).1.exercises.Perm
        (data.exercises ++ [(⟨fid, trimStr name⟩ : Exercise)]) := by
      rw [hex]
      exact List.mergeSort_perm _ _
    have happ : (data.exercises ++ [(⟨fid, trimStr name⟩ : Exercise)]).Pairwise
        (fun a b => lowerStr a.name ≠ lowerStr b.name) := by
      rw [List.pairwise_append]
      refine ⟨hdist, by simp, ?_⟩
      intro a ha b hb
      rcases List.mem_singleton.mp hb with rfl
      exact hno a ha
    refine ⟨by simp [addExercise, hne, hf], hperm, ?_, ?_, ?_, ?_, ?_, ?_, ?_, ?_⟩
    · rw [hperm.length_eq]
      simp
    · exact (List.Perm.pairwise_iff
        (R := fun a b : Exercise => lowerStr a.name ≠ lowerStr b.name)
        (fun h => Ne.symm h) hperm).mpr happ
    · rw [hex]
      have hs := @List.sorted_mergeSort _
        (fun a b : Exercise => lcmpLe lcmp a.name b.name)
        (fun a b c hab hbc => htr _ _ _ hab hbc)
        (fun a b => hto _ _)
        (data.exercises ++ [⟨fid, trimStr name⟩])
      exact hs
    · simp [addExercise, hne, hf]
    · simp [addExercise, hne, hf]
    · simp [addExercise, hne, hf]
    · simp [addExercise, hne, hf]
    · simp [addExercise, hne, hf]
  · have hs := @List.sorted_mergeSort _
      (fun a b : Exercise => lcmpLe lcmp a.name b.name)
      (fun a b c hab hbc => htr _ _ _ hab hbc)
      (fun a b => hto _ _) data.exercises
    simpa [saveData] using hs
  · simpa [saveData] using List.mergeSort_perm data.exercises _

theorem C5_add_exercise_witness :
    (addExercise lcmpLex dataB "Squat" "f1").2 = some ⟨"f1", trimStr "Squat"⟩
    ∧ (addExercise lcmpLex dataB "Squat" "f1").1.exercises.Perm
        (dataB.exercises ++ [⟨"f1", trimStr "Squat"⟩])
    ∧ (addExercise lcmpLex dataB "Squat" "f1").1.exercises.Pairwise
        (fun a b => lcmpLe lcmpLex a.name b.name = true) := by
  have h := C5_add_exercise lcmpLex lcmpLexLe_trans lcmpLexLe_total dataB "Squat" "f1"
    (by decide) (by decide)
  have h3 := h.2.2.1 (by decide) (by decide)
  exact ⟨h3.1, h3.2.1, h3.2.2.2.2.1⟩

theorem epley_pos (w r : ℚ) (hw : 0 < w) (hr : 0 < r) : 0 < calculateEpley1RM w r := by
  unfold calculateEpley1RM
  rw [if_neg (by push_neg; exact ⟨hr, hw⟩)]
  by_cases h1 : r = 1
  · rw [if_pos h1]
    exact hw
  · rw [if_neg h1]
    have : (0 : ℚ) < 1 + r / 30 := by positivity
    positivity

theorem validEpleys_pos (sets : List ExerciseSet) :
    ∀ x ∈ validEpleys sets, 0 < x := by
  intro x hx
  unfold validEpleys at hx
  rcases List.mem_filterMap.mp hx with ⟨st, -, hst⟩
  unfold setEpley at hst
  rcases hw : jsParseFloat st.weight with - | w
  · rw [hw] at hst
    simp at hst
  · rw [hw] at hst
    simp only at hst
    by_cases hdig : isDigitsL (trimL st.reps.data)
    · rw [if_pos hdig] at hst
      by_cases hpos : 0 < w ∧ 0 < ((digitsToNat (trimL st.reps.data) : ℚ))
      · rw [if_pos hpos] at hst
        obtain rfl := Option.some_injective _ hst
        exact epley_pos _ _ hpos.1 hpos.2
      · rw [if_neg hpos] at hst
        exact absurd hst (by simp)
    · rw [if_neg hdig] at hst
      exact absurd hst (by simp)

theorem update1RM_eq_step (a : ℚ) (st : ExerciseSet) :
    update1RM a st =
      match setEpley st with
      | none => a
      | some e => if a < e then e else a := by
  unfold update1RM setEpley
  rcases hw : jsParseFloat st.weight with - | w
  · rfl
  · simp only
    by_cases hdig : isDigitsL (trimL st.reps.data)
    · rw [if_pos hdig, if_pos hdig]
      by_cases hpos : 0 < w ∧ 0 < ((digitsToNat (trimL st.reps.data) : ℚ))
      · rw [if_pos hpos, if_pos hpos]
      · rw [if_neg hpos, if_neg hpos]
    · rw [if_neg hdig, if_neg hdig]

theorem foldl_update1RM_eq (sets : List ExerciseSet) :
    ∀ a : ℚ, sets.foldl update1RM a
      = (validEpleys sets).foldl (fun acc x => if acc < x then x else acc) a := by
  induction sets with
  | nil => intro a; rfl
  | cons st rest ih =>
    intro a
    have h1 : (st :: rest).foldl update1RM a
        = rest.foldl update1RM (update1RM a st) := rfl
    have h2 : validEpleys (st :: rest)
        = match setEpley st with
          | none => validEpleys rest
          | some e => e :: validEpleys rest := by
      unfold validEpleys
      rw [List.filterMap_cons]
      cases setEpley st <;> rfl
    rw [h1, ih (update1RM a st), h2, update1RM_eq_step]
    cases he : setEpley st
    · rfl
    · rfl

theorem foldl_step_eq_foldl_max (l : List ℚ) :
    ∀ a : ℚ, l.foldl (fun acc x => if acc < x then x else acc) a = l.foldl max a := by
  induction l with
  | nil => intro a; rfl
  | cons x xs ih =>
    intro a
    show xs.foldl _ (if a < x then x else a) = xs.foldl max (max a x)
    have : (if a < x then x else a) = max a x := by
      rcases lt_or_ge a x with h | h
      · rw [if_pos h, max_eq_right h.le]
      · rw [if_neg (not_lt.mpr h), max_eq_left h]
    rw [this, ih]

theorem le_foldl_max (l : List ℚ) : ∀ a : ℚ, a ≤ l.foldl max a := by
  induction l with
  | nil => intro a; exact le_refl a
  | cons x xs ih =>
    intro a
    exact le_trans (le_max_left a x) (ih (max a x))

theorem fold_pos_iff_max? (l : List ℚ) (hpos : ∀ x ∈ l, 0 < x) :
    (if 0 < l.foldl (fun acc x => if acc < x then x else acc) 0 then
        some (l.foldl (fun acc x => if acc < x then x else acc) 0)
      else none) = l.max? := by
  cases l with
  | nil => simp
  | cons x xs =>
    have hx : 0 < x := hpos x (List.mem_cons_self x xs)
    rw [foldl_step_eq_foldl_max]
    have hstep : ((x :: xs).foldl max 0) = xs.foldl max x := by
      show xs.foldl max (max 0 x) = xs.foldl max x
      rw [max_eq_right hx.le]
    rw [hstep]
    have hgt : 0 < xs.foldl max x := lt_of_lt_of_le hx (le_foldl_max xs x)
    rw [if_pos hgt, List.max?_cons']

theorem entry_point_eq (d n : String) (sets : List ExerciseSet) :
    (if 0 < sets.foldl update1RM 0 then
        some ({ date := d, exerciseName := n,
                predicted1RM := round2 (sets.foldl update1RM 0) } : OneRepMaxDataPoint)
      else none)
    = ((validEpleys sets).max?).map (fun m =>
        { date := d, exerciseName := n, predicted1RM := round2 m }) := by
  rw [foldl_update1RM_eq]
  rw [← fold_pos_iff_max? (validEpleys sets) (validEpleys_pos sets)]
  by_cases h : 0 < (validEpleys sets).foldl (fun acc x => if acc < x then x else acc) 0
  · rw [if_pos h, if_pos h]
    rfl
  · rw [if_neg h, if_neg h]
    rfl

/-- C6: `calculate1RMData` is the date-ascending sort of the series holding,
for each (log, logged exercise) pair with at least one valid set, exactly
one point whose `predicted1RM` is the two-decimal rounding of the maximum
Epley estimate over the valid sets (weight parsing positive, trimmed reps
all digits and positive); pairs with no valid set contribute nothing, and
the result is sorted ascending by date. -/
theorem C6_one_rm_series (time : String → Int) (data : AppData) :
    calculate1RMData time data
      = (specPoints data).mergeSort (fun a b => time a.date ≤ time b.date)
    ∧ (calculate1RMData time data).Pairwise
        (fun a b => time a.date ≤ time b.date) := by
  have hcong : ∀ (l : List DailyLog) (f g : DailyLog → List OneRepMaxDataPoint),
      (∀ x, f x = g x) → l.flatMap f = l.flatMap g := by
    intro l f g h
    induction l with
    | nil => rfl
    | cons x xs ih => simp only [List.flatMap_cons, h x, ih]
  have heq : calculate1RMData time data
      = (specPoints data).mergeSort (fun a b => time a.date ≤ time b.date) := by
    unfold calculate1RMData specPoints
    dsimp only
    congr 1
    apply hcong
    intro log
    have hfn : (fun loggedEx : LoggedExercise =>
        if 0 < List.foldl update1RM 0 loggedEx.sets then
          some ({ date := log.date, exerciseName := loggedEx.name,
                  predicted1RM := round2 (List.foldl update1RM 0 loggedEx.sets) }
            : OneRepMaxDataPoint)
        else none)
        = (fun lex : LoggedExercise =>
          Option.map
            (fun m => { date := log.date, exerciseName := lex.name,
                        predicted1RM := round2 m })
            (validEpleys lex.sets).max?) := by
      funext lex
      exact entry_point_eq log.date lex.name lex.sets
    rw [hfn]
  refine ⟨heq, ?_⟩
  rw [heq]
  have hs := @List.sorted_mergeSort _
    (fun a b : OneRepMaxDataPoint => decide (time a.date ≤ time b.date))
    (fun a b c hab hbc => by
      simp only [decide_eq_true_eq] at hab hbc ⊢
      exact le_trans hab hbc)
    (fun a b => by
      simp only [Bool.or_eq_true, decide_eq_true_eq]
      exact le_total _ _)
    (specPoints data)
  exact hs.imp (fun h => by simpa using h)

theorem C4_load_shape_witness :
    (loadData lcmpZero none "fresh").weeklyTemplate.length = 7
    ∧ (loadData lcmpZero none "fresh").weeklyTemplate = defaultWeeklyTemplate
    ∧ (loadData lcmpZero none "fresh").dailyLogs = []
    ∧ (loadData lcmpZero none "fresh").groups = []
    ∧ (loadData lcmpZero none "fresh").exercises = [] := by
  have h := C4_load_shape lcmpZero none "fresh"
  exact ⟨h.1, h.2.1 rfl, h.2.2.2.2.2.2.1 rfl, h.2.2.2.2.2.2.2.1 rfl,
    h.2.2.2.2.2.2.2.2 rfl⟩

/-- C1, counterexample: at weight 30 and reps 1 the code returns 30, but the
claimed formula `w·(1 + r/30)` gives 31, because of the dedicated
`reps === 1` branch. -/
theorem C1_epley_counterexample :
    (0 : ℚ) < 30 ∧ (1 : ℕ) ≥ 1 ∧
      calculateEpley1RM 30 ((1 : ℕ) : ℚ) ≠ 30 * (1 + ((1 : ℕ) : ℚ) / 30) := by
  refine ⟨by norm_num, le_refl 1, ?_⟩
  norm_num [calculateEpley1RM]

/-- C1, amended: for every weight `w > 0` and integer reps `r ≥ 1`,
`calculateEpley1RM w r` equals `w` when `r = 1` and `w·(1 + r/30)` when
`r ≥ 2`. -/
theorem C1_epley_amended (w : ℚ) (r : ℕ) (hw : 0 < w) (hr : 1 ≤ r) :
    calculateEpley1RM w r = if r = 1 then w else w * (1 + (r : ℚ) / 30) := by
  unfold calculateEpley1RM
  have hrq : (0 : ℚ) < (r : ℚ) := by
    exact_mod_cast Nat.lt_of_lt_of_le Nat.zero_lt_one hr
  have h0 : ¬((r : ℚ) ≤ 0 ∨ w ≤ 0) := by
    push_neg
    exact ⟨hrq, hw⟩
  rw [if_neg h0]
  by_cases h1 : r = 1
  · subst h1
    simp
  · have h1q : (r : ℚ) ≠ 1 := by exact_mod_cast h1
    rw [if_neg h1q, if_neg h1]

theorem C1_epley_witness :
    calculateEpley1RM 10 ((2 : ℕ) : ℚ) = 10 * (1 + ((2 : ℕ) : ℚ) / 30) := by
  have h := C1_epley_amended 10 2 (by norm_num) (by norm_num)
  simpa using h

/-- C2, counterexample: `if (data.activeSyncedGroupId)` uses JS truthiness,
so with `activeSyncedGroupId = ""` (falsy) `desyncActiveGroup` returns the
state unchanged and the id is still `""`, not undefined — against the
claim's "for every AppData ... activeSyncedGroupId undefined". -/
theorem C2_desync_counterexample :
    desyncActiveGroup dataEmptySync = dataEmptySync
    ∧ (desyncActiveGroup dataEmptySync).activeSyncedGroupId = some ""
    ∧ some "" ≠ (none : Option String) := by
  decide

/-- C2, amended: `updateWeeklyTemplate` installs the given 7-day template
and clears `activeSyncedGroupId` unconditionally; `desyncActiveGroup`
clears `activeSyncedGroupId` whenever it is not the (falsy) empty string,
returns the state unchanged when it is `""`, and in every case leaves all
other fields unchanged. -/
theorem C2_desync_on_edit (data : AppData) (t : List WeeklyTemplateDay)
    (h7 : t.length = 7) :
    ((updateWeeklyTemplate data t).activeSyncedGroupId = none
      ∧ (updateWeeklyTemplate data t).weeklyTemplate = t)
    ∧ ((data.activeSyncedGroupId ≠ some "" →
          (desyncActiveGroup data).activeSyncedGroupId = none)
      ∧ (data.activeSyncedGroupId = some "" → desyncActiveGroup data = data)
      ∧ (desyncActiveGroup data).userId = data.userId
      ∧ (desyncActiveGroup data).exercises = data.exercises
      ∧ (desyncActiveGroup data).weeklyTemplate = data.weeklyTemplate
      ∧ (desyncActiveGroup data).dailyLogs = data.dailyLogs
      ∧ (desyncActiveGroup data).groups = data.groups) := by
  unfold updateWeeklyTemplate desyncActiveGroup
  cases h : data.activeSyncedGroupId with
  | none => simp [h]
  | some s =>
    by_cases hs : s = ""
    · subst hs
      simp [h]
    · simp [h, hs]

theorem C2_desync_on_edit_witness :
    ((updateWeeklyTemplate sampleData defaultWeeklyTemplate).activeSyncedGroupId = none
      ∧ (updateWeeklyTemplate sampleData defaultWeeklyTemplate).weeklyTemplate
          = defaultWeeklyTemplate)
    ∧ ((sampleData.activeSyncedGroupId ≠ some "" →
          (desyncActiveGroup sampleData).activeSyncedGroupId = none)
      ∧ (sampleData.activeSyncedGroupId = some "" →
          desyncActiveGroup sampleData = sampleData)
      ∧ (desyncActiveGroup sampleData).userId = sampleData.userId
      ∧ (desyncActiveGroup sampleData).exercises = sampleData.exercises
      ∧ (desyncActiveGroup sampleData).weeklyTemplate = sampleData.weeklyTemplate
      ∧ (desyncActiveGroup sampleData).dailyLogs = sampleData.dailyLogs
      ∧ (desyncActiveGroup sampleData).groups = sampleData.groups) :=
  C2_desync_on_edit sampleData defaultWeeklyTemplate (by decide)

/-- C7: when a group with the given id is found, `applyGroupTemplateToUser`
copies its shared template into `weeklyTemplate`, records its id as
`activeSyncedGroupId`, and changes nothing else; when no such group exists
the state is returned unchanged. -/
theorem C7_apply_group_template (appData : AppData) (groupId : String) :
    (∀ g, appData.groups.find? (fun x => x.id == groupId) = some g →
      applyGroupTemplateToUser appData groupId =
        { appData with weeklyTemplate := g.sharedTemplate,
                       activeSyncedGroupId := some g.id })
    ∧ (appData.groups.find? (fun x => x.id == groupId) = none →
      applyGroupTemplateToUser appData groupId = appData) := by
  constructor
  · intro g hg
    unfold applyGroupTemplateToUser
    rw [hg]
  · intro hn
    unfold applyGroupTemplateToUser
    rw [hn]

theorem findIdx_set_eq_rfa {α : Type} (p : α → Bool) (a : α) (l : List α) :
    (match l.findIdx? p with
     | some i => l.set i a
     | none => l ++ [a]) = replaceFirstOrAppend p a l := by
  induction l with
  | nil => simp [replaceFirstOrAppend]
  | cons x xs ih =>
    simp only [List.findIdx?_cons, replaceFirstOrAppend]
    by_cases hx : p x
    · simp [hx]
    · simp only [hx, Bool.false_eq_true, if_false, List.findIdx?_start_succ, Nat.zero_add]
      cases h : xs.findIdx? p with
      | none =>
        rw [h] at ih
        simp [← ih]
      | some j =>
        rw [h] at ih
        simp [← ih]

theorem mem_rfa {α : Type} (p : α → Bool) (a : α) (l : List α) :
    a ∈ replaceFirstOrAppend p a l := by
  induction l with
  | nil => simp [replaceFirstOrAppend]
  | cons x xs ih =>
    simp only [replaceFirstOrAppend]
    by_cases hx : p x
    · simp [hx]
    · simp [hx, ih]

theorem mem_of_mem_rfa {α : Type} {p : α → Bool} {a y : α} {l : List α}
    (h : y ∈ replaceFirstOrAppend p a l) : y = a ∨ y ∈ l := by
  induction l with
  | nil =>
    simp [replaceFirstOrAppend] at h
    exact Or.inl h
  | cons x xs ih =>
    simp only [replaceFirstOrAppend] at h
    by_cases hx : p x
    · simp [hx] at h
      rcases h with h | h
      · exact Or.inl h
      · exact Or.inr (List.mem_cons_of_mem x h)
    · simp [hx] at h
      rcases h with h | h
      · exact Or.inr (by simp [h])
      · rcases ih h with h | h
        · exact Or.inl h
        · exact Or.inr (List.mem_cons_of_mem x h)

theorem rfa_pairwise_dates (log : DailyLog) (l : List DailyLog)
    (hd : l.Pairwise (fun a b => a.date ≠ b.date)) :
    (replaceFirstOrAppend (fun x => x.date == log.date) log l).Pairwise
      (fun a b => a.date ≠ b.date) := by
  induction l with
  | nil => simp [replaceFirstOrAppend]
  | cons x xs ih =>
    rcases List.pairwise_cons.mp hd with ⟨hx, hxs⟩
    simp only [replaceFirstOrAppend]
    by_cases hp : x.date = log.date
    · simp only [hp, beq_self_eq_true, if_true]
      exact List.pairwise_cons.mpr ⟨fun y hy => hp ▸ hx y hy, hxs⟩
    · have : (x.date == log.date) = false := beq_eq_false_iff_ne.mpr hp
      simp only [this, Bool.false_eq_true, if_false]
      refine List.pairwise_cons.mpr ⟨fun y hy => ?_, ih hxs⟩
      rcases mem_of_mem_rfa hy with rfl | hy
      · exact hp
      · exact hx y hy

theorem rfa_unique_date (log : DailyLog) (l : List DailyLog)
    (hd : l.Pairwise (fun a b => a.date ≠ b.date)) :
    ∀ y ∈ replaceFirstOrAppend (fun x => x.date == log.date) log l,
      y.date = log.date → y = log := by
  induction l with
  | nil =>
    intro y hy _
    simpa [replaceFirstOrAppend] using hy
  | cons x xs ih =>
    rcases List.pairwise_cons.mp hd with ⟨hx, hxs⟩
    intro y hy hdate
    simp only [replaceFirstOrAppend] at hy
    by_cases hp : x.date = log.date
    · simp only [hp, beq_self_eq_true, if_true] at hy
      rcases List.mem_cons.mp hy with rfl | hy
      · rfl
      · exact absurd (hp.trans hdate.symm) (hx y hy)
    · have : (x.date == log.date) = false := beq_eq_false_iff_ne.mpr hp
      simp only [this, Bool.false_eq_true, if_false] at hy
      rcases List.mem_cons.mp hy with rfl | hy
      · exact absurd hdate hp
      · exact ih hxs y hy hdate

/-- C9: on logs with at most one entry per date, `upsertDailyLog` keeps
dates pairwise distinct, makes the given log the unique log of its date
(the updated list is a permutation of replace-first-or-append), sorts the
logs ascending by date, and leaves every other field unchanged. -/
theorem C9_upsert_daily_log (time : String → Int) (data : AppData) (log : DailyLog)
    (hd : data.dailyLogs.Pairwise (fun a b => a.date ≠ b.date)) :
    (upsertDailyLog time data log).dailyLogs.Pairwise (fun a b => a.date ≠ b.date)
    ∧ log ∈ (upsertDailyLog time data log).dailyLogs
    ∧ (∀ d ∈ (upsertDailyLog time data log).dailyLogs, d.date = log.date → d = log)
    ∧ (upsertDailyLog time data log).dailyLogs.Pairwise
        (fun a b => time a.date ≤ time b.date)
    ∧ (upsertDailyLog time data log).dailyLogs.Perm
        (replaceFirstOrAppend (fun x => x.date == log.date) log data.dailyLogs)
    ∧ (upsertDailyLog time data log).userId = data.userId
    ∧ (upsertDailyLog time data log).exercises = data.exercises
    ∧ (upsertDailyLog time data log).weeklyTemplate = data.weeklyTemplate
    ∧ (upsertDailyLog time data log).groups = data.groups
    ∧ (upsertDailyLog time data log).activeSyncedGroupId = data.activeSyncedGroupId := by
  have hkey :
      (match data.dailyLogs.findIdx? (fun dlog => dlog.date == log.date) with
       | some i => data.dailyLogs.set i log
       | none => data.dailyLogs ++ [log]) =
      replaceFirstOrAppend (fun x => x.date == log.date) log data.dailyLogs :=
    findIdx_set_eq_rfa _ log data.dailyLogs
  have hlogs : (upsertDailyLog time data log).dailyLogs =
      (replaceFirstOrAppend (fun x => x.date == log.date) log data.dailyLogs).mergeSort
        (fun a b => time a.date ≤ time b.date) := by
    simp only [upsertDailyLog, hkey]
  have hperm : (upsertDailyLog time data log).dailyLogs.Perm
      (replaceFirstOrAppend (fun x => x.date == log.date) log data.dailyLogs) := by
    rw [hlogs]
    exact List.mergeSort_perm _ _
  have hsym : Symmetric (fun a b : DailyLog => a.date ≠ b.date) :=
    fun a b h => h.symm
  have hpwiff := List.Perm.pairwise_iff
    (R := fun a b : DailyLog => a.date ≠ b.date) (fun h => Ne.symm h) hperm
  refine ⟨?_, ?_, ?_, ?_, hperm, ?_, ?_, ?_, ?_, ?_⟩
  · exact hpwiff.mpr (rfa_pairwise_dates log data.dailyLogs hd)
  · exact hperm.mem_iff.mpr (mem_rfa _ log data.dailyLogs)
  · intro d hdm hdate
    exact rfa_unique_date log data.dailyLogs hd d (hperm.mem_iff.mp hdm) hdate
  · rw [hlogs]
    have := @List.sorted_mergeSort _
      (fun a b : DailyLog => decide (time a.date ≤ time b.date))
      (fun a b c hab hbc => by
        simp only [decide_eq_true_eq] at hab hbc ⊢
        exact le_trans hab hbc)
      (fun a b => by
        simp only [Bool.or_eq_true, decide_eq_true_eq]
        exact le_total _ _)
      (replaceFirstOrAppend (fun x => x.date == log.date) log data.dailyLogs)
    exact this.imp (fun h => by simpa using h)
  · simp [upsertDailyLog]
  · simp [upsertDailyLog]
  · simp [upsertDailyLog]
  · simp [upsertDailyLog]
  · simp [upsertDailyLog]

theorem C9_upsert_daily_log_witness :
    (upsertDailyLog timeDigits sampleDataLogs sampleLogTue).dailyLogs.Pairwise
        (fun a b => a.date ≠ b.date)
    ∧ sampleLogTue ∈ (upsertDailyLog timeDigits sampleDataLogs sampleLogTue).dailyLogs
    ∧ (∀ d ∈ (upsertDailyLog timeDigits sampleDataLogs sampleLogTue).dailyLogs,
        d.date = sampleLogTue.date → d = sampleLogTue)
    ∧ (upsertDailyLog timeDigits sampleDataLogs sampleLogTue).dailyLogs.Pairwise
        (fun a b => timeDigits a.date ≤ timeDigits b.date)
    ∧ (upsertDailyLog timeDigits sampleDataLogs sampleLogTue).dailyLogs.Perm
        (replaceFirstOrAppend (fun x => x.date == sampleLogTue.date) sampleLogTue
          sampleDataLogs.dailyLogs)
    ∧ (upsertDailyLog timeDigits sampleDataLogs sampleLogTue).userId = sampleDataLogs.userId
    ∧ (upsertDailyLog timeDigits sampleDataLogs sampleLogTue).exercises
        = sampleDataLogs.exercises
    ∧ (upsertDailyLog timeDigits sampleDataLogs sampleLogTue).weeklyTemplate
        = sampleDataLogs.weeklyTemplate
    ∧ (upsertDailyLog timeDigits sampleDataLogs sampleLogTue).groups = sampleDataLogs.groups
    ∧ (upsertDailyLog timeDigits sampleDataLogs sampleLogTue).activeSyncedGroupId
        = sampleDataLogs.activeSyncedGroupId :=
  C9_upsert_daily_log timeDigits sampleDataLogs sampleLogTue (by decide)

theorem C7_apply_group_template_witness :
    applyGroupTemplateToUser sampleDataWithGroup "g1" =
      { sampleDataWithGroup with
        weeklyTemplate := sampleGroup.sharedTemplate,
        activeSyncedGroupId := some sampleGroup.id } :=
  (C7_apply_group_template sampleDataWithGroup "g1").1 sampleGroup (by decide)

theorem jsIsSpace_asciiLower (c : Char) : jsIsSpace (asciiLower c) = jsIsSpace c := by
  unfold asciiLower
  split <;> rfl

theorem dayNames_ok : ∀ day ∈ DAYS_OF_WEEK,
    day.data ≠ [] ∧ ∀ c ∈ lowerL day.data, jsIsSpace c = false := by
  decide

theorem no_ws_of_lower_eq_dayname {l : List Char} {day : String}
    (hne0 : day.data ≠ []) (hws0 : ∀ c ∈ lowerL day.data, jsIsSpace c = false)
    (heq : lowerL day.data = lowerL l) :
    l ≠ [] ∧ ∀ c ∈ l, jsIsSpace c = false := by
  constructor
  · intro h0
    rw [h0] at heq
    have hlen0 : day.data.length = 0 := by
      have h1 := congrArg List.length heq
      simpa [lowerL] using h1
    exact hne0 (List.length_eq_zero.mp hlen0)
  · intro c hc
    have hmem : asciiLower c ∈ lowerL l := List.mem_map_of_mem asciiLower hc
    rw [← heq] at hmem
    have := hws0 _ hmem
    rwa [jsIsSpace_asciiLower] at this

theorem wsSplitAux_no_ws (cs : List Char) :
    ∀ acc, (∀ c ∈ cs, jsIsSpace c = false) →
      wsSplitAux cs acc false = [acc.reverse ++ cs] := by
  induction cs with
  | nil =>
    intro acc _
    simp [wsSplitAux]
  | cons c rest ih =>
    intro acc h
    have hc := h c (List.mem_cons_self c rest)
    simp only [wsSplitAux, hc, Bool.false_eq_true, if_false]
    rw [ih (c :: acc) (fun x hx => h x (List.mem_cons_of_mem c hx))]
    simp

theorem jsSplitWS_single {l : List Char}
    (hws : ∀ c ∈ l, jsIsSpace c = false) : jsSplitWS l = [l] := by
  unfold jsSplitWS
  rw [wsSplitAux_no_ws l [] hws]
  simp

theorem dayCheck_eq_dayOfLine (l : List Char) : dayCheck l = dayOfLine l := by
  unfold dayCheck dayOfLine
  cases hf : dayNameIdx (trimL l) with
  | none =>
    dsimp only
    rw [hf]
  | some dayIndex =>
    have hf2 := hf
    unfold dayNameIdx at hf2
    obtain ⟨hlt, hpred, -⟩ := List.findIdx?_eq_some_iff_getElem.mp hf2
    have heq : lowerL (DAYS_OF_WEEK[dayIndex]).data = lowerL (trimL l) := by
      simpa using hpred
    obtain ⟨hne0, hws0⟩ := dayNames_ok DAYS_OF_WEEK[dayIndex] (List.getElem_mem hlt)
    obtain ⟨-, hws⟩ := no_ws_of_lower_eq_dayname hne0 hws0 heq
    have hsplit : jsSplitWS (trimL l) = [trimL l] := jsSplitWS_single hws
    have hgetD : DAYS_OF_WEEK.getD dayIndex "" = DAYS_OF_WEEK[dayIndex] := by
      rw [List.getD_eq_getElem?_getD, List.getElem?_eq_getElem hlt]
      rfl
    dsimp only
    rw [hf]
    dsimp only
    rw [hsplit, hgetD]
    rw [if_pos]
    simp [heq]

theorem findDayFrom_spec (ls : List (List Char)) (k di : Nat)
    (hk : k < ls.length)
    (hday : dayOfLine (ls.getD k []) = some di)
    (hprev : ∀ j, j < k → dayOfLine (ls.getD j []) = none) :
    ∀ i, findDayFrom ls i = some (di, i + k) := by
  induction ls generalizing k with
  | nil => exact absurd hk (by simp)
  | cons l rest ih =>
    intro i
    cases k with
    | zero =>
      have hl : dayCheck l = some di := by
        rw [dayCheck_eq_dayOfLine]
        simpa using hday
      unfold findDayFrom
      rw [hl]
      simp
    | succ k2 =>
      have h0 : dayCheck l = none := by
        rw [dayCheck_eq_dayOfLine]
        simpa using hprev 0 (Nat.succ_pos k2)
      unfold findDayFrom
      rw [h0]
      have hrec := ih k2 (by simpa using hk) (by simpa using hday)
        (fun j hj => by simpa using hprev (j + 1) (Nat.succ_lt_succ hj)) (i + 1)
      rw [hrec]
      have harith : i + 1 + k2 = i + (k2 + 1) := by omega
      rw [harith]

theorem findLineFrom_eq_none (p : List Char → Bool) (ls : List (List Char)) :
    ∀ i, (findLineFrom p ls i = none ↔ ∀ l ∈ ls, p l = false) := by
  induction ls with
  | nil =>
    intro i
    simp [findLineFrom]
  | cons l rest ih =>
    intro i
    unfold findLineFrom
    by_cases hp : p l
    · simp [hp]
    · rw [if_neg hp]
      rw [ih (i + 1)]
      constructor
      · intro h x hx
        rcases List.mem_cons.mp hx with rfl | hx
        · exact Bool.eq_false_iff.mpr hp
        · exact h x hx
      · intro h x hx
        exact h x (List.mem_cons_of_mem l hx)

theorem headerSearch_isSome (lines : List (List Char)) (s : Nat)
    (h : ∃ l ∈ lines.drop s, hdrPredMS l = true) :
    ∃ hi hc, headerSearch lines s = some (hi, hc) := by
  unfold headerSearch
  cases h1 : findLineFrom hdrPredMSR (lines.drop s) s with
  | some v => exact ⟨v.1, v.2, rfl⟩
  | none =>
    cases h2 : findLineFrom hdrPredMS (lines.drop s) s with
    | some v => exact ⟨v.1, v.2, rfl⟩
    | none =>
      rw [findLineFrom_eq_none] at h2
      obtain ⟨l, hl, hp⟩ := h
      rw [h2 l hl] at hp
      exact absurd hp (by simp)

theorem extract_blank {l : List Char} (h : trimL l = []) :
    extractWorkoutFromTextBlock l = none := by
  unfold extractWorkoutFromTextBlock
  rw [h]
  rfl

theorem collectDayItems_eq (ls : List (List Char)) :
    ∀ n, collectDayItems ls n = tagFrom n (ls.filterMap extractWorkoutFromTextBlock) := by
  induction ls with
  | nil => intro n; rfl
  | cons l rest ih =>
    intro n
    unfold collectDayItems
    by_cases hb : trimL l = []
    · rw [if_pos (by simpa using hb)]
      rw [List.filterMap_cons, extract_blank hb]
      exact ih n
    · rw [if_neg (by simpa using hb)]
      rw [List.filterMap_cons]
      cases he : extractWorkoutFromTextBlock l with
      | none => exact ih n
      | some b =>
        unfold tagFrom
        rw [ih (n + 1)]

/-- C3, counterexample: the weekday detection only scans the first five
lines.  In `c3Text` line 5 trims to "Tuesday" (weekday 2) and line 6 is a
movement/sets header, yet the parse has no key 2: it falls into the column
branch and files the items under Monday (key 1). -/
theorem C3_single_day_counterexample :
    dayOfLine ((linesOf c3Text).getD 5 []) = some 2
    ∧ hdrPredMS ((linesOf c3Text).getD 6 []) = true
    ∧ (parseFullWorkoutPlanFromText c3Text).lookup 2 = none
    ∧ (parseFullWorkoutPlanFromText c3Text).map Prod.fst = [1] := by
  decide

/-- C3, amended: when one of the FIRST FIVE lines trims to exactly a weekday
name (case-insensitively) — the first such line selecting the weekday — and
some later line contains movement and sets, the parse has that weekday as
its only key, mapping to the items extracted from the lines after the
chosen header row (the first line after the weekday line mentioning
movement, sets and reps, else the first mentioning movement and sets),
tagged with consecutive `originalIndex` values from 0. -/
theorem C3_single_day_parse (raw : String) (di li : Nat)
    (hli5 : li < 5) (hlen : li < (linesOf raw).length)
    (hday : dayOfLine ((linesOf raw).getD li []) = some di)
    (hfirst : ∀ j, j < li → dayOfLine ((linesOf raw).getD j []) = none)
    (hdr : ∃ l ∈ (linesOf raw).drop (li + 1), hdrPredMS l = true) :
    ∃ hi hc, headerSearch (linesOf raw) (li + 1) = some (hi, hc)
      ∧ parseFullWorkoutPlanFromText raw
          = [(di, tagItems (((linesOf raw).drop (hi + 1)).filterMap
              extractWorkoutFromTextBlock))] := by
  obtain ⟨hi, hc, hhs⟩ := headerSearch_isSome (linesOf raw) (li + 1) hdr
  refine ⟨hi, hc, hhs, ?_⟩
  have hday5 : findDayFrom ((linesOf raw).take 5) 0 = some (di, li) := by
    have hk : li < ((linesOf raw).take 5).length := by
      rw [List.length_take]
      exact lt_min hli5 hlen
    have hgd : ∀ j, j < 5 → ((linesOf raw).take 5).getD j [] = (linesOf raw).getD j [] := by
      intro j hj
      rw [List.getD_eq_getElem?_getD, List.getD_eq_getElem?_getD, List.getElem?_take]
      simp [hj]
    have hspec := findDayFrom_spec ((linesOf raw).take 5) li di hk
      (by rw [hgd li hli5]; exact hday)
      (fun j hj => by rw [hgd j (hj.trans hli5)]; exact hfirst j hj) 0
    simpa using hspec
  unfold parseFullWorkoutPlanFromText
  dsimp only
  rw [hday5]
  dsimp only
  rw [hhs]
  dsimp only
  rw [collectDayItems_eq]
  rfl

theorem C3_single_day_parse_witness :
    ∃ hi hc, headerSearch (linesOf c3Good) 1 = some (hi, hc)
      ∧ parseFullWorkoutPlanFromText c3Good
          = [(1, tagItems (((linesOf c3Good).drop (hi + 1)).filterMap
              extractWorkoutFromTextBlock))] :=
  C3_single_day_parse c3Good 1 0 (by decide) (by decide) (by decide)
    (fun j hj => absurd hj (Nat.not_lt_zero j)) (by decide)

theorem enumFrom_take {α : Type} (l : List α) :
    ∀ n k, (l.enumFrom k).take n = (l.take n).enumFrom k := by
  induction l with
  | nil => intro n k; simp
  | cons x xs ih =>
    intro n k
    cases n with
    | zero => simp
    | succ m =>
      simp only [List.enumFrom, List.take]
      rw [ih m (k + 1)]

theorem mapDay_small (m : List Nat) (h : m.length ≤ 4) :
    (m.enum.map fun p => dayOrderForColumns.getD p.1 0)
      = dayOrderForColumns.take m.length := by
  rcases m with - | ⟨a, - | ⟨b, - | ⟨c, - | ⟨d, - | ⟨e, rest⟩⟩⟩⟩⟩
  · rfl
  · rfl
  · rfl
  · rfl
  · rfl
  · simp at h

theorem dayOrder_take_min (n : Nat) :
    dayOrderForColumns.take (min 4 n) = dayOrderForColumns.take n := by
  by_cases h : n ≤ 4
  · rw [Nat.min_eq_right h]
  · have h4 : 4 ≤ n := le_of_not_le h
    rw [Nat.min_eq_left h4]
    rw [List.take_all_of_le (by decide), List.take_all_of_le (by simpa [dayOrderForColumns])]

theorem columnDefs_map_day (colStarts : List Nat) (hl : Nat) :
    (columnDefinitions colStarts hl).map (fun cd => cd.day)
      = dayOrderForColumns.take colStarts.length := by
  unfold columnDefinitions
  rw [List.map_map]
  have he : colStarts.enum.take 4 = (colStarts.take 4).enum := by
    unfold List.enum
    exact enumFrom_take colStarts 4 0
  rw [he]
  have hsm := mapDay_small (colStarts.take 4) (by simp [List.length_take])
  have hcomp : ((fun cd : ColDef => cd.day) ∘ (fun p : Nat × Nat =>
      ({ day := dayOrderForColumns.getD p.1 0, start := p.2,
         stop := if p.1 + 1 < colStarts.length then colStarts.getD (p.1 + 1) 0 - 1
                 else hl } : ColDef)))
      = (fun p : Nat × Nat => dayOrderForColumns.getD p.1 0) := rfl
  rw [hcomp, hsm, List.length_take, dayOrder_take_min]

theorem dayOrder_lt7 : ∀ d ∈ dayOrderForColumns, d < 7 := by decide

theorem dayOrder_nodup : dayOrderForColumns.Nodup := by decide

theorem trimL_eq_nil_iff (l : List Char) :
    trimL l = [] ↔ ∀ c ∈ l, jsIsSpace c = true := by
  constructor
  · intro h c hc
    unfold trimL at h
    have h2 : (l.dropWhile jsIsSpace).reverse.dropWhile jsIsSpace = [] :=
      List.reverse_eq_nil_iff.mp h
    have hall2 : ∀ x ∈ (l.dropWhile jsIsSpace).reverse, jsIsSpace x = true :=
      List.dropWhile_eq_nil_iff.mp h2
    have hall : ∀ x ∈ l.dropWhile jsIsSpace, jsIsSpace x = true := by
      intro x hx
      exact hall2 x (List.mem_reverse.mpr hx)
    have hl : l = l.takeWhile jsIsSpace ++ l.dropWhile jsIsSpace :=
      (List.takeWhile_append_dropWhile jsIsSpace l).symm
    rw [hl] at hc
    rcases List.mem_append.mp hc with hc | hc
    · exact List.mem_takeWhile_imp hc
    · exact hall c hc
  · intro h
    unfold trimL
    have h1 : l.dropWhile jsIsSpace = [] := List.dropWhile_eq_nil_iff.mpr h
    rw [h1]
    rfl

theorem blockOf_blank {cd : ColDef} {l : List Char} (h : trimL l = []) :
    trimL (blockOf cd l) = [] := by
  rw [trimL_eq_nil_iff] at h ⊢
  intro c hc
  unfold blockOf at hc
  exact h c (List.mem_of_mem_take (List.mem_of_mem_drop hc))

theorem findDayFrom_none : ∀ (ls : List (List Char)),
    (∀ l ∈ ls, dayCheck l = none) → ∀ i, findDayFrom ls i = none := by
  intro ls
  induction ls with
  | nil => intro _ i; rfl
  | cons l rest ih =>
    intro h i
    have h0 := h l (List.mem_cons_self l rest)
    unfold findDayFrom
    rw [h0]
    exact ih (fun x hx => h x (List.mem_cons_of_mem l hx)) (i + 1)

theorem findLineFrom_some_pred (p : List Char → Bool) (ls : List (List Char)) :
    ∀ i j c, findLineFrom p ls i = some (j, c) → p c = true := by
  induction ls with
  | nil =>
    intro i j c h
    exact absurd h (by simp [findLineFrom])
  | cons l rest ih =>
    intro i j c h
    unfold findLineFrom at h
    by_cases hp : p l
    · rw [if_pos hp] at h
      simp only [Option.some.injEq, Prod.mk.injEq] at h
      obtain ⟨-, rfl⟩ := h
      exact hp
    · rw [if_neg hp] at h
      exact ih (i + 1) j c h

theorem headerSearch_pred {lines : List (List Char)} {s hi : Nat} {hc : List Char}
    (h : headerSearch lines s = some (hi, hc)) : hdrPredMS hc = true := by
  unfold headerSearch at h
  cases h1 : findLineFrom hdrPredMSR (lines.drop s) s with
  | some v =>
    rw [h1] at h
    obtain rfl : v = (hi, hc) := Option.some_injective _ h
    have hmsr := findLineFrom_some_pred hdrPredMSR (lines.drop s) s hi hc h1
    unfold hdrPredMSR at hmsr
    unfold hdrPredMS
    simp only [Bool.and_eq_true] at hmsr ⊢
    exact ⟨hmsr.1.1, hmsr.1.2⟩
  | none =>
    rw [h1] at h
    exact findLineFrom_some_pred hdrPredMS (lines.drop s) s hi hc h

theorem idxOfAux_isSome (pat : List Char) :
    ∀ (hay : List Char) (i : Nat), containsSub hay pat = true →
      ∃ j, idxOfAux pat hay i = some j := by
  intro hay
  induction hay with
  | nil =>
    intro i h
    unfold containsSub at h
    refine ⟨i, ?_⟩
    unfold idxOfAux
    rw [if_pos ?_]
    simpa [List.isPrefixOf] using h
  | cons c t ih =>
    intro i h
    unfold containsSub at h
    unfold idxOfAux
    by_cases hp : pat.isPrefixOf (c :: t)
    · exact ⟨i, by rw [if_pos hp]⟩
    · rw [if_neg hp]
      rcases Bool.or_eq_true _ _ |>.mp h with h1 | h2
      · exact absurd h1 hp
      · exact ih (i + 1) h2

theorem collectStarts_ne_nil {hay pat : List Char}
    (h : containsSub hay pat = true) : collectStarts hay pat ≠ [] := by
  obtain ⟨j, hj⟩ := idxOfAux_isSome pat hay 0 h
  unfold collectStarts collectStartsAux
  unfold idxOfFrom
  simp only [List.drop_zero]
  rw [hj]
  simp

theorem processCols_cons (line : List Char) (temp : List (List ParsedCSVExercisePlanItem))
    (cd : ColDef) (rest : List ColDef) :
    processCols line temp (cd :: rest)
      = processCols line
          (match extractWorkoutFromTextBlock (blockOf cd line) with
           | some b => temp.set cd.day (temp.getD cd.day []
               ++ [⟨b.name, b.targetSets, b.targetReps, some (temp.getD cd.day []).length⟩])
           | none => temp) rest := by
  unfold processCols
  rw [List.foldl_cons]

theorem processCols_length (line : List Char) (defs : List ColDef) :
    ∀ temp, (processCols line temp defs).length = temp.length := by
  induction defs with
  | nil => intro temp; rfl
  | cons cd rest ih =>
    intro temp
    rw [processCols_cons]
    cases he : extractWorkoutFromTextBlock (blockOf cd line) with
    | none => exact ih temp
    | some b =>
      rw [ih]
      exact List.length_set ..

theorem processCols_getD_notin (line : List Char) (d : Nat) (defs : List ColDef) :
    ∀ temp, (∀ cd ∈ defs, cd.day ≠ d) →
      (processCols line temp defs).getD d [] = temp.getD d [] := by
  induction defs with
  | nil => intro temp _; rfl
  | cons cd rest ih =>
    intro temp hno
    have hcd : cd.day ≠ d := hno cd (List.mem_cons_self cd rest)
    have hrest : ∀ x ∈ rest, x.day ≠ d := fun x hx => hno x (List.mem_cons_of_mem cd hx)
    rw [processCols_cons]
    cases he : extractWorkoutFromTextBlock (blockOf cd line) with
    | none => exact ih temp hrest
    | some b =>
      rw [ih _ hrest, List.getD_eq_getElem?_getD, List.getD_eq_getElem?_getD,
        List.getElem?_set_ne hcd, ← List.getD_eq_getElem?_getD]

theorem processCols_getD_find (line : List Char) (d : Nat) (cd : ColDef) :
    ∀ (defs : List ColDef) (temp : List (List ParsedCSVExercisePlanItem)),
      (defs.map (fun x => x.day)).Nodup →
      (∀ x ∈ defs, x.day < 7) →
      defs.find? (fun x => x.day == d) = some cd →
      temp.length = 7 →
      (processCols line temp defs).getD d []
        = temp.getD d [] ++
          (match extractWorkoutFromTextBlock (blockOf cd line) with
           | some b => [⟨b.name, b.targetSets, b.targetReps,
               some (temp.getD d []).length⟩]
           | none => []) := by
  intro defs
  induction defs with
  | nil =>
    intro temp _ _ hf _
    exact absurd hf (by simp)
  | cons x rest ih =>
    intro temp hnd hlt hf hlen
    rw [List.map_cons, List.nodup_cons] at hnd
    obtain ⟨hxnotin, hnd2⟩ := hnd
    have hlt2 : ∀ y ∈ rest, y.day < 7 := fun y hy => hlt y (List.mem_cons_of_mem x hy)
    rw [processCols_cons]
    by_cases hx : (x.day == d) = true
    · have hcd : cd = x := by
        rw [@List.find?_cons_of_pos _ (fun y : ColDef => y.day == d) x rest hx] at hf
        exact (Option.some_injective _ hf).symm
      subst hcd
      have hxd : cd.day = d := by simpa using hx
      have hrest_no : ∀ y ∈ rest, y.day ≠ d := by
        intro y hy hyd
        exact hxnotin (by
          rw [hxd, ← hyd]
          exact List.mem_map_of_mem (fun z => z.day) hy)
      cases he : extractWorkoutFromTextBlock (blockOf cd line) with
      | none =>
        rw [processCols_getD_notin line d rest temp hrest_no]
        simp
      | some b =>
        rw [processCols_getD_notin line d rest _ hrest_no]
        have hdlt : d < temp.length := by
          rw [hlen, ← hxd]
          exact hlt cd (List.mem_cons_self cd rest)
        rw [hxd, List.getD_eq_getElem?_getD, List.getElem?_set_self hdlt]
        simp
    · rw [@List.find?_cons_of_neg _ (fun y : ColDef => y.day == d) x rest hx] at hf
      have hxd : x.day ≠ d := by simpa using hx
      cases he : extractWorkoutFromTextBlock (blockOf x line) with
      | none => exact ih temp hnd2 hlt2 hf hlen
      | some b =>
        have hlen2 : (temp.set x.day (temp.getD x.day []
            ++ [⟨b.name, b.targetSets, b.targetReps,
                  some (temp.getD x.day []).length⟩])).length = 7 := by
          rw [List.length_set]
          exact hlen
        rw [ih _ hnd2 hlt2 hf hlen2]
        have hbucket : (temp.set x.day (temp.getD x.day []
            ++ [⟨b.name, b.targetSets, b.targetReps,
                  some (temp.getD x.day []).length⟩])).getD d [] = temp.getD d [] := by
          rw [List.getD_eq_getElem?_getD, List.getElem?_set_ne hxd,
            ← List.getD_eq_getElem?_getD]
        rw [hbucket]

theorem foldLines_getD_notin (defs : List ColDef) (d : Nat)
    (hno : ∀ cd ∈ defs, cd.day ≠ d) :
    ∀ (ls : List (List Char)) (temp : List (List ParsedCSVExercisePlanItem)),
      (ls.foldl (fun t l => if (trimL l).isEmpty then t else processCols l t defs)
        temp).getD d [] = temp.getD d [] := by
  intro ls
  induction ls with
  | nil => intro temp; rfl
  | cons l rest ih =>
    intro temp
    rw [List.foldl_cons]
    by_cases hb : (trimL l).isEmpty
    · rw [if_pos hb]
      exact ih temp
    · rw [if_neg hb]
      rw [ih (processCols l temp defs)]
      exact processCols_getD_notin l d defs temp hno

theorem foldLines_getD_find (defs : List ColDef) (d : Nat) (cd : ColDef)
    (hnd : (defs.map (fun x => x.day)).Nodup)
    (hlt : ∀ x ∈ defs, x.day < 7)
    (hf : defs.find? (fun x => x.day == d) = some cd) :
    ∀ (ls : List (List Char)) (temp : List (List ParsedCSVExercisePlanItem)),
      temp.length = 7 →
      (ls.foldl (fun t l => if (trimL l).isEmpty then t else processCols l t defs)
          temp).getD d []
        = temp.getD d [] ++ tagFrom (temp.getD d []).length
            (ls.filterMap (fun l => extractWorkoutFromTextBlock (blockOf cd l))) := by
  intro ls
  induction ls with
  | nil =>
    intro temp _
    simp [tagFrom]
  | cons l rest ih =>
    intro temp hlen
    rw [List.foldl_cons, List.filterMap_cons]
    by_cases hb : (trimL l).isEmpty
    · rw [if_pos hb]
      have hnone : extractWorkoutFromTextBlock (blockOf cd l) = none :=
        extract_blank (blockOf_blank (List.isEmpty_iff.mp hb))
      rw [hnone]
      exact ih temp hlen
    · rw [if_neg hb]
      have hlen2 : (processCols l temp defs).length = 7 := by
        rw [processCols_length]
        exact hlen
      rw [ih (processCols l temp defs) hlen2]
      have hpc := processCols_getD_find l d cd defs temp hnd hlt hf hlen
      cases he : extractWorkoutFromTextBlock (blockOf cd l) with
      | none =>
        rw [he] at hpc
        rw [hpc]
        simp
      | some b =>
        rw [he] at hpc
        rw [hpc]
        rw [List.append_assoc]
        congr 1
        rw [List.length_append]
        rw [tagFrom]
        simp

/-- C10: with no weekday line but a movement/sets header, the parser takes
the column branch: the `movement` occurrences in the chosen header define
the columns, assigned left to right to weekdays 1, 2, 4, 5 (occurrences
past the fourth are dropped), and the plan keys exactly those of these
weekdays whose column yields at least one extracted item, each mapped to
its column's items tagged with consecutive `originalIndex` values. -/
theorem C10_column_mode (raw : String)
    (hnoday : ∀ l ∈ linesOf raw, dayOfLine l = none)
    (hdr : ∃ l ∈ linesOf raw, hdrPredMS l = true) :
    ∃ hi hc, headerSearch (linesOf raw) 0 = some (hi, hc)
      ∧ (columnDefinitions (collectStarts (lowerL hc) "movement".data)
            hc.length).map (fun cd => cd.day)
          = dayOrderForColumns.take
              (collectStarts (lowerL hc) "movement".data).length
      ∧ parseFullWorkoutPlanFromText raw
          = (List.range 7).filterMap (fun d =>
              match (columnDefinitions (collectStarts (lowerL hc) "movement".data)
                  hc.length).find? (fun cd => cd.day == d) with
              | none => none
              | some cd =>
                if (columnItems cd ((linesOf raw).drop (hi + 1))).isEmpty then none
                else some (d, columnItems cd ((linesOf raw).drop (hi + 1)))) := by
  obtain ⟨hi, hc, hhs⟩ := headerSearch_isSome (linesOf raw) 0 (by simpa using hdr)
  refine ⟨hi, hc, hhs, columnDefs_map_day _ _, ?_⟩
  have hdet : findDayFrom ((linesOf raw).take 5) 0 = none :=
    findDayFrom_none _ (fun l hl => by
      rw [dayCheck_eq_dayOfLine]
      exact hnoday l (List.mem_of_mem_take hl)) 0
  have hpredms : hdrPredMS hc = true := headerSearch_pred hhs
  have hcontains : containsSub (lowerL hc) "movement".data = true := by
    unfold hdrPredMS at hpredms
    exact (Bool.and_eq_true _ _ |>.mp hpredms).1
  have hcs : collectStarts (lowerL hc) "movement".data ≠ [] :=
    collectStarts_ne_nil hcontains
  have hmap := columnDefs_map_day (collectStarts (lowerL hc) "movement".data) hc.length
  have hnd : ((columnDefinitions (collectStarts (lowerL hc) "movement".data)
      hc.length).map (fun cd => cd.day)).Nodup := by
    rw [hmap]
    exact (List.take_sublist _ _).nodup dayOrder_nodup
  have hlt7 : ∀ x ∈ columnDefinitions (collectStarts (lowerL hc) "movement".data)
      hc.length, x.day < 7 := by
    intro x hx
    have hmem : x.day ∈ (columnDefinitions (collectStarts (lowerL hc) "movement".data)
        hc.length).map (fun cd => cd.day) := List.mem_map_of_mem _ hx
    rw [hmap] at hmem
    exact dayOrder_lt7 _ (List.mem_of_mem_take hmem)
  have hrep : ∀ d, (List.replicate 7 ([] : List ParsedCSVExercisePlanItem)).getD d []
      = [] := by
    intro d
    rw [List.getD_eq_getElem?_getD, List.getElem?_replicate]
    by_cases h : d < 7 <;> simp [h]
  unfold parseFullWorkoutPlanFromText
  dsimp only
  rw [hdet]
  dsimp only
  rw [hhs]
  dsimp only
  rw [if_neg (by simp [hcs])]
  apply List.filterMap_congr
  intro d hd
  cases hfind : (columnDefinitions (collectStarts (lowerL hc) "movement".data)
      hc.length).find? (fun cd => cd.day == d) with
  | none =>
    have hno : ∀ cd ∈ columnDefinitions (collectStarts (lowerL hc) "movement".data)
        hc.length, cd.day ≠ d := by
      intro cd hcd hne
      have hfalse := List.find?_eq_none.mp hfind cd hcd
      simp [hne] at hfalse
    rw [foldLines_getD_notin _ d hno, hrep d]
    rfl
  | some cd =>
    have hfold := foldLines_getD_find _ d cd hnd hlt7 hfind
      ((linesOf raw).drop (hi + 1)) (List.replicate 7 []) (by simp)
    rw [hfold, hrep d]
    simp only [List.nil_append]
    rfl

theorem C10_column_mode_witness :
    ∃ hi hc, headerSearch (linesOf c10Text) 0 = some (hi, hc)
      ∧ (columnDefinitions (collectStarts (lowerL hc) "movement".data)
            hc.length).map (fun cd => cd.day)
          = dayOrderForColumns.take
              (collectStarts (lowerL hc) "movement".data).length
      ∧ parseFullWorkoutPlanFromText c10Text
          = (List.range 7).filterMap (fun d =>
              match (columnDefinitions (collectStarts (lowerL hc) "movement".data)
                  hc.length).find? (fun cd => cd.day == d) with
              | none => none
              | some cd =>
                if (columnItems cd ((linesOf c10Text).drop (hi + 1))).isEmpty then none
                else some (d, columnItems cd ((linesOf c10Text).drop (hi + 1)))) :=
  C10_column_mode c10Text (by decide) (by decide)

end AnchorPhase
